import Mathlib

/- Shallow embedding of the import-job queue and pipeline worker of this
repository.

Embedded source files:
- the worker loop (importWorker.ts): batch claiming with
  SELECT ... FOR UPDATE SKIP LOCKED, the per-job pipeline
  (catalog lookup, download, unzip, layer inference) and the
  terminal status updates;
- the HTTP boundary (importacoes route.ts): the enqueue POST handler and
  the status GET handler.

Machine integers are modelled as Nat, timestamps as Nat, SQL NULL as
Option, and row sets as lists of records. -/

/-- The status column of an import_status row. The worker writes the
string literals queued, running, done and error; we model them as an
enumeration. -/
inductive Status
  | queued
  | running
  | done
  | error
deriving DecidableEq, Repr

/-- One row of the import_status table, with the columns used by the
worker and the HTTP handlers (the always-null distribuidora_id column is
omitted from row values; it is tracked at the column-name level where the
projection of the status GET is analysed). -/
structure Job where
  import_id : Nat
  distribuidora_nome : String
  ano : Nat
  camada : Option String
  status : Status
  linhas_processadas : Nat
  data_inicio : Option Nat
  data_fim : Option Nat
  observacoes : Option String
  erro : Option String
deriving DecidableEq, Repr

/-- The ids of the rows of a store, in store order. -/
def storeIds (store : List Job) : List Nat :=
  store.map (·.import_id)

/-- Lexicographic comparison of character lists, used to model the SQL
ORDER BY on text columns. -/
def strLe : List Char → List Char → Bool
  | [], _ => true
  | _ :: _, [] => false
  | a :: as, b :: bs => if a < b then true else if b < a then false else strLe as bs

/-- The ORDER BY ano, distribuidora_nome comparison of the claiming
SELECT, as a Bool-valued comparator. -/
def jobLeB (a b : Job) : Bool :=
  if a.ano < b.ano then true
  else if b.ano < a.ano then false
  else strLe a.distribuidora_nome.toList b.distribuidora_nome.toList

/-- The ORDER BY ano, distribuidora_nome comparison, as a relation. -/
def JobLe (a b : Job) : Prop := jobLeB a b = true

instance : DecidableRel JobLe := fun _ _ => inferInstanceAs (Decidable (_ = true))

/-- The claiming SELECT of the worker loop: rows with status queued,
sorted by (ano, distribuidora_nome), with rows currently locked by
another transaction skipped (FOR UPDATE SKIP LOCKED), truncated to the
batch size (LIMIT). -/
def selectQueued (store : List Job) (locked : List Nat) (batch : Nat) : List Job :=
  (((store.filter fun j => j.status == .queued).insertionSort JobLe).filter
      fun j => !(locked.contains j.import_id)).take batch

/-- The per-row effect of the running-marking UPDATE of the worker loop:
status running, data_inicio = now, erro = NULL. -/
def markRow (now : Nat) (ids : List Nat) (j : Job) : Job :=
  if ids.contains j.import_id then
    { j with status := .running, data_inicio := some now, erro := none }
  else j

/-- The running-marking UPDATEs of the worker loop applied to a store. -/
def markRunning (now : Nat) (ids : List Nat) (store : List Job) : List Job :=
  store.map (markRow now ids)

/-- ClaimBatch as one atomic store operation: the SELECT (with no
competing locks) followed by the running-marking UPDATEs, returning the
selected rows and the updated store. -/
def claimBatch (store : List Job) (batch now : Nat) : List Job × List Job :=
  let sel := selectQueued store [] batch
  (sel, markRunning now (storeIds sel) store)

/-- The row of a store carrying a given import_id (the row addressed by
an UPDATE ... WHERE import_id = id). -/
def storeRow (store : List Job) (id : Nat) : Option Job :=
  store.find? fun j => j.import_id == id

/-- The status of the row carrying a given import_id. -/
def jobStatus (store : List Job) (id : Nat) : Option Status :=
  (storeRow store id).map (·.status)

/- The claiming transaction of the worker loop, statement by statement.
The worker runs BEGIN, the locking SELECT, one UPDATE per selected row,
and COMMIT on one connection; an exception at any statement reaches the
outer catch, so the transaction never commits and the buffered updates
are discarded (rollback). -/

/-- One SQL statement of the claiming transaction. -/
inductive ClaimStmt
  | selectStmt
  | updateStmt (id : Nat)
  | commitStmt
deriving DecidableEq, Repr

/-- The statement sequence of one claiming transaction against a given
store: the SELECT, then one running-marking UPDATE per selected row (in
selection order, as the for loop of the worker issues them), then
COMMIT. -/
def claimStmts (store : List Job) (batch : Nat) : List ClaimStmt :=
  .selectStmt ::
    (((selectQueued store [] batch).map fun j => ClaimStmt.updateStmt j.import_id)
      ++ [.commitStmt])

/-- Statement-level execution of the claiming transaction. committed is
the store state visible outside the transaction; updates run inside the
transaction are only buffered (pending) and are published by COMMIT
alone. A failure injected at statement index failAt aborts the
transaction: the buffered updates are discarded and no row set is
returned to the caller. -/
def execClaimGo (batch now : Nat) (failAt : Option Nat) :
    List Job → List Job → List Nat → Nat → List ClaimStmt →
      List Job × Option (List Job)
  | committed, _, _, _, [] => (committed, none)
  | committed, selected, pending, i, stmt :: rest =>
    if failAt = some i then (committed, none)
    else
      match stmt with
      | .selectStmt =>
          execClaimGo batch now failAt committed (selectQueued committed [] batch)
            pending (i + 1) rest
      | .updateStmt id =>
          execClaimGo batch now failAt committed selected (pending ++ [id]) (i + 1) rest
      | .commitStmt => (markRunning now pending committed, some selected)

/-- One claim attempt of the worker loop against a store, with an
optional injected failure point. -/
def execClaim (store : List Job) (batch now : Nat) (failAt : Option Nat) :
    List Job × Option (List Job) :=
  execClaimGo batch now failAt store [] [] 0 (claimStmts store batch)

/- The per-job pipeline of the worker: catalog lookup (getUrl), download,
extraction, layer inference and the terminal UPDATE. -/

/-- One row of the dataset_url_normalized catalog view. -/
structure CatalogRow where
  id : Nat
  distribuidora : String
  ano : Nat
  url : String
  title : String
deriving DecidableEq, Repr

/-- The catalog lookup getUrl of the worker: SELECT url ... WHERE
distribuidora = nome AND ano = ano LIMIT 1, then rows[0]?.url ?? null. -/
def getUrl (catalog : List CatalogRow) (distribuidora_nome : String) (ano : Nat) :
    Option String :=
  ((catalog.filter fun r =>
      r.distribuidora == distribuidora_nome && r.ano == ano).head?).map (·.url)

/-- Result of the HTTP fetch: either the promise rejects with a message
(network or stream failure), or a response arrives with a status code
and the presence or absence of a body. -/
inductive FetchRes
  | netErr (msg : String)
  | resp (status : Nat) (hasBody : Bool)

/-- Per-job environment of the pipeline: the catalog view, the network
(download result per URL), the unzip step (per URL of the archive it
came from: an extraction error message, or the top-level entry names of
the extraction directory), and the base download directory. -/
structure Env where
  catalog : List CatalogRow
  fetch : String → FetchRes
  extract : String → Except String (List String)
  baseDir : String

/-- destDir = path.join(BASE_DIR, distribuidora_nome, String(ano)). -/
def destDir (e : Env) (j : Job) : String :=
  e.baseDir ++ "/" ++ j.distribuidora_nome ++ "/" ++ toString j.ano

/-- unzipDest = path.join(destDir, the unzipped subdirectory). -/
def unzipDest (e : Env) (j : Job) : String :=
  destDir e j ++ "/unzipped"

/-- The fixed vocabulary of the classification regex alternation, in
regex order. -/
def layerCodes : List String := ["UCMT", "UCBT", "UCAT", "PONNOT"]

/-- ASCII uppercasing of an entry name, character by character. -/
def upperChars (s : String) : List Char := s.toList.map Char.toUpper

/-- Substring test on character lists, as an executable Bool. -/
def occursWithin (needle : List Char) : List Char → Bool
  | [] => needle.isEmpty
  | c :: rest => needle.isPrefixOf (c :: rest) || occursWithin needle rest

/-- The case-insensitive regex test on one entry name: the codes are
ASCII uppercase, so the case-insensitive match is a substring match on
the uppercased name. -/
def testLayer (f : String) : Bool :=
  layerCodes.any fun code => occursWithin code.toList (upperChars f)

/-- The regex capture: the alternative matching at the earliest position
of the uppercased name, alternatives tried in regex order at each
position; the uppercased capture is then the code itself. -/
def findCode : List Char → Option String
  | [] => none
  | c :: rest =>
    match layerCodes.find? (fun code => code.toList.isPrefixOf (c :: rest)) with
    | some code => some code
    | none => findCode rest

/-- The camada inference of the worker: files.find over the top-level
entry names of the extraction directory; the first entry passing the
regex test decides, and no hit leaves camada null. -/
def inferCamada (files : List String) : Option String :=
  match files.find? testLayer with
  | some hit => findCode (upperChars hit)
  | none => none

/-- The terminal status update issued by the worker for one job: the
done UPDATE carrying the inferred camada and the observacoes text, or
the error UPDATE carrying the failure message. -/
inductive Outcome
  | finalizeDone (camada : Option String) (obs : String)
  | finalizeErr (msg : String)
deriving DecidableEq, Repr

/-- The per-row effect of a terminal UPDATE: done sets status done,
camada = COALESCE(new, old), data_fim = now and observacoes; error sets
status error, erro = message and data_fim = now. -/
def applyRow (now : Nat) (oc : Outcome) (j : Job) : Job :=
  match oc with
  | .finalizeDone cam obs =>
    { j with
        status := .done,
        camada := cam.orElse (fun _ => j.camada),
        data_fim := some now,
        observacoes := some obs }
  | .finalizeErr msg =>
    { j with status := .error, erro := some msg, data_fim := some now }

/-- A terminal UPDATE ... WHERE import_id = id applied to the store. -/
def applyOutcome (now : Nat) (id : Nat) (oc : Outcome) (store : List Job) :
    List Job :=
  store.map fun j => if j.import_id == id then applyRow now oc j else j

/-- The pipeline executor for one claimed job, producing the terminal
update for exactly that job. Every failure mode (lookup miss, network
failure, non-success response, missing body, extraction failure) is
captured into an error outcome: the function is total, so no exception
escapes the processing of a single job. -/
def processJob (e : Env) (j : Job) : Nat × Outcome :=
  match getUrl e.catalog j.distribuidora_nome j.ano with
  | none => (j.import_id, .finalizeErr "URL não encontrada na view")
  | some url =>
    match e.fetch url with
    | .netErr msg => (j.import_id, .finalizeErr msg)
    | .resp status hasBody =>
      if ¬(200 ≤ status ∧ status ≤ 299) then
        (j.import_id, .finalizeErr ("HTTP " ++ toString status))
      else if !hasBody then
        (j.import_id, .finalizeErr "Resposta sem corpo")
      else
        match e.extract url with
        | .error msg => (j.import_id, .finalizeErr msg)
        | .ok files =>
          (j.import_id,
            .finalizeDone (inferCamada files) ("Arquivos em: " ++ unzipDest e j))

/-- The per-batch loop of the worker: each claimed job is processed
independently and its single terminal update applied to the store. -/
def processBatch (e : Env) (now : Nat) (jobs : List Job) (store : List Job) :
    List Job :=
  jobs.foldl (fun st j => applyOutcome now (processJob e j).1 (processJob e j).2 st) store

/- The multi-worker protocol. Each worker loop iteration is one claiming
transaction (locking SELECT with SKIP LOCKED, buffered running UPDATEs,
COMMIT) followed by per-job terminal updates issued in autocommit mode.
Row locks taken by the SELECT are held until COMMIT; updates inside the
transaction become visible to other connections only at COMMIT. -/

/-- State of one worker connection: between claims (idle), inside the
claiming transaction holding row locks (selected), or processing a
committed batch whose listed jobs are still unfinished (committed). -/
inductive Phase
  | idle
  | selected (ids : List Nat)
  | committed (pending : List Nat)
deriving DecidableEq, Repr

/-- Shared system state: the committed store, the row-lock table (row
id, owning worker connection), the per-worker phases, and the history of
row-id batches returned by the claiming SELECTs (what each ClaimBatch
caller observed). -/
structure Sys where
  store : List Job
  locks : List (Nat × Nat)
  workers : List (Nat × Phase)
  hist : List (List Nat)
deriving DecidableEq, Repr

/-- The row ids currently locked. -/
def lockedIds (s : Sys) : List Nat := s.locks.map (·.1)

/-- Find the phase of one worker connection. -/
def lookupPhase : List (Nat × Phase) → Nat → Option Phase
  | [], _ => none
  | w :: ws, t => if w.1 == t then some w.2 else lookupPhase ws t

/-- Replace the phase of one worker. -/
def setPhase (ws : List (Nat × Phase)) (t : Nat) (p : Phase) : List (Nat × Phase) :=
  ws.map fun w => if w.1 == t then (w.1, p) else w

/-- One interleaving event of the multi-worker protocol: a claiming
SELECT by worker t, the COMMIT of its claiming transaction, one terminal
update for a claimed job, or the return to the top of the loop. -/
inductive Event
  | selectBatch (t : Nat)
  | commitClaim (t : Nat) (now : Nat)
  | finalize (t : Nat) (id : Nat) (oc : Outcome) (now : Nat)
  | nextIter (t : Nat)
deriving DecidableEq, Repr

/-- The status a terminal update writes. -/
def outcomeStatus : Outcome → Status
  | .finalizeDone _ _ => .done
  | .finalizeErr _ => .error

/-- One atomic step of the protocol. The claiming SELECT locks the rows
it returns and never waits on a lock (SKIP LOCKED): it is always enabled
for an idle worker. COMMIT publishes the buffered running UPDATEs and
releases the locks. A terminal update is issued only for a job of the
committed, unfinished batch of the owning worker. Steps violating a
precondition are refused (none). -/
def step (batch : Nat) (s : Sys) : Event → Option Sys
  | .selectBatch t =>
    match lookupPhase s.workers t with
    | some .idle =>
      some { store := s.store,
             locks := s.locks ++
               (storeIds (selectQueued s.store (lockedIds s) batch)).map fun i => (i, t),
             workers := setPhase s.workers t
               (.selected (storeIds (selectQueued s.store (lockedIds s) batch))),
             hist := s.hist ++ [storeIds (selectQueued s.store (lockedIds s) batch)] }
    | _ => none
  | .commitClaim t now =>
    match lookupPhase s.workers t with
    | some (.selected ids) =>
      some { store := markRunning now ids s.store,
             locks := s.locks.filter fun p => p.2 != t,
             workers := setPhase s.workers t (.committed ids),
             hist := s.hist }
    | _ => none
  | .finalize t id oc now =>
    match lookupPhase s.workers t with
    | some (.committed pending) =>
      if id ∈ pending then
        some { store := applyOutcome now id oc s.store,
               locks := s.locks,
               workers := setPhase s.workers t (.committed (pending.erase id)),
               hist := s.hist }
      else none
    | _ => none
  | .nextIter t =>
    match lookupPhase s.workers t with
    | some (.committed []) =>
      some { store := s.store, locks := s.locks,
             workers := setPhase s.workers t .idle, hist := s.hist }
    | _ => none

/-- Run a list of interleaved events from a state. -/
def run (batch : Nat) (s : Sys) : List Event → Option Sys
  | [] => some s
  | e :: es =>
    match step batch s e with
    | some s2 => run batch s2 es
    | none => none

/-- Initial state: a store of jobs, no locks, all workers idle, no claim
observed yet. -/
def init (jobs : List Job) (ws : List Nat) : Sys :=
  { store := jobs, locks := [],
    workers := ws.map fun t => (t, Phase.idle), hist := [] }

/-- The transitions the spec permits for one job: stay, queued to
running, or running to a terminal status. -/
def okTransition (a b : Status) : Prop :=
  a = b ∨ (a = .queued ∧ b = .running) ∨ (a = .running ∧ (b = .done ∨ b = .error))

/-- Inductive invariant of the multi-worker protocol: store ids and lock
rows are duplicate-free; a worker inside its claiming transaction holds
exactly the locks of its selected rows, which are still queued in the
committed store; every lock belongs to such a worker; the unfinished
jobs of a committed batch are running, unlocked, and owned by exactly
one worker; and every id ever returned by a claiming SELECT was returned
once and is either still locked or no longer queued. -/
structure WInv (s : Sys) : Prop where
  store_nodup : (storeIds s.store).Nodup
  locks_nodup : (lockedIds s).Nodup
  sel_spec : ∀ t ids, lookupPhase s.workers t = some (.selected ids) →
    ids.Nodup ∧ ∀ id ∈ ids, (id, t) ∈ s.locks ∧ jobStatus s.store id = some .queued
  lock_owner : ∀ id t, (id, t) ∈ s.locks →
    ∃ ids, lookupPhase s.workers t = some (.selected ids) ∧ id ∈ ids
  pend_spec : ∀ t pending, lookupPhase s.workers t = some (.committed pending) →
    pending.Nodup ∧ ∀ id ∈ pending,
      jobStatus s.store id = some .running ∧ id ∉ lockedIds s
  pend_disjoint : ∀ t u pt pu, t ≠ u →
    lookupPhase s.workers t = some (.committed pt) →
    lookupPhase s.workers u = some (.committed pu) → ∀ id ∈ pt, id ∉ pu
  hist_nodup : s.hist.flatten.Nodup
  hist_settled : ∀ id ∈ s.hist.flatten,
    id ∈ lockedIds s ∨ jobStatus s.store id ≠ some .queued

/-- Concrete three-job store for the protocol witnesses. -/
def wJobs : List Job :=
  [{ import_id := 1, distribuidora_nome := "A", ano := 2023, camada := none,
     status := .queued, linhas_processadas := 0, data_inicio := none,
     data_fim := none, observacoes := none, erro := none },
   { import_id := 2, distribuidora_nome := "B", ano := 2023, camada := none,
     status := .queued, linhas_processadas := 0, data_inicio := none,
     data_fim := none, observacoes := none, erro := none },
   { import_id := 3, distribuidora_nome := "A", ano := 2024, camada := none,
     status := .queued, linhas_processadas := 0, data_inicio := none,
     data_fim := none, observacoes := none, erro := none }]

/-- Concrete two-worker interleaving with overlapping claim
transactions, for the protocol witnesses. -/
def wEvents : List Event :=
  [Event.selectBatch 0, Event.selectBatch 1, Event.commitClaim 0 10,
   Event.commitClaim 1 11,
   Event.finalize 0 1 (.finalizeDone (some "UCMT") "ok") 20,
   Event.finalize 0 2 (.finalizeErr "HTTP 404") 21, Event.nextIter 0]

/- The HTTP boundary: the enqueue POST handler and the status GET
handler of the importacoes routes. -/

/-- An SQL value as bound by the enqueue INSERT. -/
inductive SqlVal
  | vNull
  | vStr (v : String)
  | vNat (v : Nat)
deriving DecidableEq, Repr

/-- The twelve values the enqueue handler pushes per catalog row:
import_id, distribuidora_id (null), ano, camada (null), the queued
status, linhas_processadas 0, data_inicio, data_fim, observacoes and
erro (null), distribuidora_nome, and the catalog row id (intended as a
back reference). importId stands for the generated randomUUID. -/
def rowValues (importId : Nat) (r : CatalogRow) : List SqlVal :=
  [.vNat importId, .vNull, .vNat r.ano, .vNull, .vStr "queued", .vNat 0,
   .vNull, .vNull, .vNull, .vNull, .vStr r.distribuidora, .vNat r.id]

/-- All values bound by the INSERT, in row order. -/
def enqueueValues : Nat → List CatalogRow → List SqlVal
  | _, [] => []
  | i, r :: rs => rowValues i r ++ enqueueValues (i + 1) rs

/-- The eleven parameter indices written into the placeholder group of
row i: base + 1 up to base + 11 with base = i * 12. -/
def rowPlaceholders (i : Nat) : List Nat :=
  [i * 12 + 1, i * 12 + 2, i * 12 + 3, i * 12 + 4, i * 12 + 5, i * 12 + 6,
   i * 12 + 7, i * 12 + 8, i * 12 + 9, i * 12 + 10, i * 12 + 11]

/-- The parameter indices referenced by the INSERT statement text, row
by row. -/
def referencedParams : Nat → List Nat
  | 0 => []
  | k + 1 => referencedParams k ++ rowPlaceholders k

/-- The parameter count of the prepared INSERT statement: the largest
parameter index referenced in its text. -/
def statementParamCount (k : Nat) : Nat :=
  (referencedParams k).foldr max 0

/-- Postgres accepts the INSERT only when the bind supplies exactly as
many values as the prepared statement has parameters, and every
parameter index up to that count is referenced somewhere in the
statement text (otherwise its type cannot be inferred at parse time). -/
def insertAccepted (rows : List CatalogRow) : Bool :=
  ((enqueueValues 0 rows).length == statementParamCount rows.length)
    && (List.range (statementParamCount rows.length)).all
        fun i => (referencedParams rows.length).contains (i + 1)

/-- The request body of the enqueue POST after JSON parsing: none models
a field that is absent or is not a JSON array. -/
structure EnqueueReq where
  distribuidoras : Option (List String)
  anos : Option (List Nat)
deriving DecidableEq, Repr

/-- The guard of the enqueue POST: both fields must be arrays and
non-empty. -/
def validSelection (r : EnqueueReq) : Bool :=
  match r.distribuidoras, r.anos with
  | some (_ :: _), some (_ :: _) => true
  | _, _ => false

/-- The response of the enqueue POST: the 400 rejection, the JSON count
answer, or an unhandled query failure (the handler has no catch). -/
inductive PostResponse
  | badRequest (msg : String)
  | okCount (n : Nat)
  | sqlError
deriving DecidableEq, Repr

/-- The HTTP status code of each response. -/
def statusCodeOf : PostResponse → Nat
  | .badRequest _ => 400
  | .okCount _ => 200
  | .sqlError => 500

/-- What one call of the enqueue POST handler did: its response, whether
the catalog was queried, and how many import_status rows were
inserted. -/
structure PostResult where
  response : PostResponse
  catalogQueried : Bool
  insertedRows : Nat
deriving DecidableEq, Repr

/-- The ORDER BY distribuidora, ano of the catalog query. -/
def catRowLeB (a b : CatalogRow) : Bool :=
  if a.distribuidora == b.distribuidora then a.ano ≤ b.ano
  else strLe a.distribuidora.toList b.distribuidora.toList

/-- The ORDER BY distribuidora, ano comparison as a relation. -/
def CatRowLe (a b : CatalogRow) : Prop := catRowLeB a b = true

instance : DecidableRel CatRowLe := fun _ _ => inferInstanceAs (Decidable (_ = true))

/-- The catalog query of the enqueue POST: rows whose distribuidora and
ano lie in the selected sets, ordered by distribuidora, ano. -/
def matchingRows (catalog : List CatalogRow) (ds : List String)
    (anos : List Nat) : List CatalogRow :=
  (catalog.filter fun r =>
    ds.contains r.distribuidora && anos.contains r.ano).insertionSort CatRowLe

/-- The enqueue POST handler: validate the selection, query the catalog
cross-product, answer zero without inserting when nothing matches, and
otherwise attempt the multi-row INSERT, which takes effect only if
Postgres accepts its parameter binding. -/
def postImportacoes (catalog : List CatalogRow) (req : EnqueueReq) : PostResult :=
  if !validSelection req then
    ⟨.badRequest "Seleção inválida", false, 0⟩
  else
    match req.distribuidoras, req.anos with
    | some ds, some anos =>
      let rows := matchingRows catalog ds anos
      if rows.isEmpty then ⟨.okCount 0, true, 0⟩
      else if insertAccepted rows then ⟨.okCount rows.length, true, rows.length⟩
      else ⟨.sqlError, true, 0⟩
    | _, _ => ⟨.badRequest "Seleção inválida", false, 0⟩

/-- The columns the status GET selects. -/
def statusSelectColumns : List String :=
  ["import_id", "distribuidora_nome", "ano", "camada", "status",
   "linhas_processadas", "data_inicio", "data_fim", "erro", "observacoes"]

/-- Modelled from the spec: the full ImportJob field list of the data
model (its section 3, equally the persisted state layout of its
section 6); used only to compare the spec against the projection of the
status GET. -/
def specImportJobFields : List String :=
  ["id", "distributor_name", "year", "layer", "status", "rows_processed",
   "started_at", "finished_at", "notes", "error_detail", "catalog_ref"]

/-- The import_status column carrying each spec field. The catalog
back-reference maps to distribuidora_id, the only stored candidate
column: the catalog row id itself is pushed by the enqueue handler
without any target column. -/
def specFieldToColumn : String → String
  | "id" => "import_id"
  | "distributor_name" => "distribuidora_nome"
  | "year" => "ano"
  | "layer" => "camada"
  | "status" => "status"
  | "rows_processed" => "linhas_processadas"
  | "started_at" => "data_inicio"
  | "finished_at" => "data_fim"
  | "notes" => "observacoes"
  | "error_detail" => "erro"
  | "catalog_ref" => "distribuidora_id"
  | s => s

/-- The sort key of the status GET: COALESCE(data_inicio, now()). -/
def startKey (now : Nat) (j : Job) : Nat := (j.data_inicio).getD now

/-- The ORDER BY COALESCE(data_inicio, now()) DESC comparison. -/
def StatusGe (now : Nat) (a b : Job) : Prop := startKey now b ≤ startKey now a

instance (now : Nat) : DecidableRel (StatusGe now) := fun _ _ =>
  inferInstanceAs (Decidable (_ ≤ _))

/-- The status GET: rows ordered by COALESCE(data_inicio, now())
descending, LIMIT 200. -/
def statusRows (now : Nat) (store : List Job) : List Job :=
  (store.insertionSort (StatusGe now)).take 200

theorem strLe_total (a b : List Char) : strLe a b = true ∨ strLe b a = true := by
  induction a generalizing b with
  | nil => left; rfl
  | cons x xs ih =>
    cases b with
    | nil => right; rfl
    | cons y ys =>
      by_cases hxy : x < y
      · left; simp [strLe, hxy]
      · by_cases hyx : y < x
        · right; simp [strLe, hyx]
        · have hxy' : x = y := le_antisymm (not_lt.mp hyx) (not_lt.mp hxy)
          subst hxy'
          rcases ih ys with h | h
          · left; simp [strLe, h]
          · right; simp [strLe, h]

theorem strLe_trans {a b c : List Char} (h1 : strLe a b = true)
    (h2 : strLe b c = true) : strLe a c = true := by
  induction a generalizing b c with
  | nil => rfl
  | cons x xs ih =>
    cases b with
    | nil => simp [strLe] at h1
    | cons y ys =>
      cases c with
      | nil => simp [strLe] at h2
      | cons z zs =>
        simp only [strLe] at h1 h2 ⊢
        by_cases hxy : x < y
        · by_cases hyz : y < z
          · simp [lt_trans hxy hyz]
          · by_cases hzy : z < y
            · simp [hyz, hzy] at h2
            · have : y = z := le_antisymm (not_lt.mp hzy) (not_lt.mp hyz)
              subst this
              simp [hxy]
        · by_cases hyx : y < x
          · simp [hxy, hyx] at h1
          · have : x = y := le_antisymm (not_lt.mp hyx) (not_lt.mp hxy)
            subst this
            by_cases hyz : x < z
            · simp [hyz]
            · by_cases hzy : z < x
              · simp [hyz, hzy] at h2
              · have : x = z := le_antisymm (not_lt.mp hzy) (not_lt.mp hyz)
                subst this
                simp [hxy] at h1 h2 ⊢
                exact ih h1 h2

instance : IsTotal Job JobLe := by
  constructor
  intro a b
  unfold JobLe jobLeB
  by_cases hab : a.ano < b.ano
  · left; simp [hab]
  · by_cases hba : b.ano < a.ano
    · right; simp [hba]
    · rcases strLe_total a.distribuidora_nome.toList b.distribuidora_nome.toList with h | h
      · left; simp only [hab, hba, if_false]; exact h
      · right; simp only [hab, hba, if_false]; exact h

instance : IsTrans Job JobLe := by
  constructor
  intro a b c h1 h2
  unfold JobLe jobLeB at h1 h2 ⊢
  by_cases hab : a.ano < b.ano
  · by_cases hbc : b.ano < c.ano
    · simp [lt_trans hab hbc]
    · by_cases hcb : c.ano < b.ano
      · simp [hbc, hcb] at h2
      · have : b.ano = c.ano := le_antisymm (not_lt.mp hcb) (not_lt.mp hbc)
        simp [this ▸ hab]
  · by_cases hba : b.ano < a.ano
    · simp [hab, hba] at h1
    · have hab' : a.ano = b.ano := le_antisymm (not_lt.mp hba) (not_lt.mp hab)
      by_cases hbc : b.ano < c.ano
      · simp [hab' ▸ hbc]
      · by_cases hcb : c.ano < b.ano
        · simp [hbc, hcb] at h2
        · have hbc' : b.ano = c.ano := le_antisymm (not_lt.mp hcb) (not_lt.mp hbc)
          have hac : a.ano = c.ano := hab'.trans hbc'
          simp [hab, hba, hac ▸ hab, hac ▸ hba] at h1 h2 ⊢
          simp [hac, lt_irrefl]
          exact strLe_trans h1 h2

theorem mem_selectQueued {store : List Job} {locked : List Nat} {batch : Nat}
    {j : Job} (h : j ∈ selectQueued store locked batch) :
    j ∈ store ∧ j.status = .queued ∧ locked.contains j.import_id = false := by
  unfold selectQueued at h
  have h1 := (List.take_sublist _ _).subset h
  rw [List.mem_filter] at h1
  obtain ⟨h2, h3⟩ := h1
  have h4 := (List.perm_insertionSort JobLe _).mem_iff.mp h2
  rw [List.mem_filter] at h4
  obtain ⟨h5, h6⟩ := h4
  refine ⟨h5, by simpa using h6, by simpa using h3⟩

theorem selectQueued_sublist_sorted (store : List Job) (locked : List Nat)
    (batch : Nat) :
    (selectQueued store locked batch).Sublist
      ((store.filter fun j => j.status == .queued).insertionSort JobLe) := by
  unfold selectQueued
  exact (List.take_sublist _ _).trans (List.filter_sublist _)

theorem selectQueued_ids_nodup {store : List Job} (locked : List Nat)
    (batch : Nat) (h : (storeIds store).Nodup) :
    (storeIds (selectQueued store locked batch)).Nodup := by
  unfold storeIds at h ⊢
  have hfilter :
      ((store.filter fun j => j.status == .queued).map fun j => j.import_id).Nodup :=
    (List.Sublist.map (fun j => j.import_id) (List.filter_sublist store)).nodup h
  have hperm := List.Perm.map (fun j : Job => j.import_id)
    (List.perm_insertionSort JobLe (store.filter fun j => j.status == .queued))
  have hsorted :
      (((store.filter fun j => j.status == .queued).insertionSort JobLe).map
        fun j => j.import_id).Nodup := hperm.nodup_iff.mpr hfilter
  exact (List.Sublist.map (fun j => j.import_id)
    (selectQueued_sublist_sorted store locked batch)).nodup hsorted

theorem storeRow_map {f : Job → Job} (hf : ∀ j, (f j).import_id = j.import_id)
    (store : List Job) (id : Nat) :
    storeRow (store.map f) id = (storeRow store id).map f := by
  unfold storeRow
  rw [List.find?_map]
  have hp : ((fun j => j.import_id == id) ∘ f) = (fun j : Job => j.import_id == id) := by
    funext j
    simp [Function.comp, hf]
  rw [hp]

theorem storeRow_eq_of_mem {store : List Job} {j : Job}
    (h : (storeIds store).Nodup) (hj : j ∈ store) :
    storeRow store j.import_id = some j := by
  induction store with
  | nil => simp at hj
  | cons a l ih =>
    rcases List.mem_cons.mp hj with rfl | hj'
    · simp [storeRow]
    · have hne : a.import_id ≠ j.import_id := by
        intro he
        have : j.import_id ∈ storeIds l := List.mem_map_of_mem (·.import_id) hj'
        rw [storeIds, List.map_cons] at h
        exact (List.nodup_cons.mp h).1 (he ▸ this)
      have hrest : (storeIds l).Nodup := by
        rw [storeIds, List.map_cons] at h
        exact (List.nodup_cons.mp h).2
      simp only [storeRow, List.find?_cons]
      rw [show (a.import_id == j.import_id) = false by simpa using hne]
      exact ih hrest hj'

theorem storeRow_markRunning (now : Nat) (ids : List Nat) (store : List Job)
    (id : Nat) :
    storeRow (markRunning now ids store) id =
      (storeRow store id).map (markRow now ids) := by
  unfold markRunning
  exact storeRow_map (fun j => by unfold markRow; split <;> rfl) store id

/-- C2: ClaimBatch(maxSize) returns at most maxSize jobs, all of which
had status queued at selection time, ordered by ano then
distribuidora_nome; each returned job is marked running in the resulting
store with data_inicio set to the claim time and erro cleared; when no
queued job exists the result is empty (the operation is total, not an
error). -/
theorem claimBatch_contract (store : List Job) (batch now : Nat)
    (hids : (storeIds store).Nodup) :
    (claimBatch store batch now).1.length ≤ batch
    ∧ (∀ j ∈ (claimBatch store batch now).1, j ∈ store ∧ j.status = .queued)
    ∧ List.Sorted JobLe (claimBatch store batch now).1
    ∧ (∀ j ∈ (claimBatch store batch now).1,
        storeRow (claimBatch store batch now).2 j.import_id =
          some { j with status := .running, data_inicio := some now, erro := none })
    ∧ ((∀ j ∈ store, j.status ≠ .queued) → (claimBatch store batch now).1 = []) := by
  refine ⟨?_, ?_, ?_, ?_, ?_⟩
  · show (selectQueued store [] batch).length ≤ batch
    unfold selectQueued
    rw [List.length_take]
    exact min_le_left _ _
  · intro j hj
    have := mem_selectQueued hj
    exact ⟨this.1, this.2.1⟩
  · have hsorted := List.sorted_insertionSort JobLe
      (store.filter fun j => j.status == .queued)
    exact hsorted.sublist (selectQueued_sublist_sorted store [] batch)
  · intro j hj
    have hmem : j ∈ store := (mem_selectQueued hj).1
    have hid : (storeIds (selectQueued store [] batch)).contains j.import_id = true := by
      simp only [storeIds, List.contains_eq_any_beq, List.any_eq_true]
      exact ⟨j.import_id, List.mem_map_of_mem (·.import_id) hj, by simp⟩
    unfold claimBatch
    rw [storeRow_markRunning, storeRow_eq_of_mem hids hmem]
    simp only [Option.map_some']
    unfold markRow
    rw [if_pos hid]
  · intro hnone
    show selectQueued store [] batch = []
    unfold selectQueued
    have : store.filter (fun j => j.status == .queued) = [] := by
      rw [List.filter_eq_nil_iff]
      intro j hj
      simpa using hnone j hj
    rw [this, show List.insertionSort JobLe [] = ([] : List Job) from rfl]
    simp

/-- Witness for C2 at a concrete store of one queued and one running row. -/
theorem claimBatch_contract_witness :
    ((storeIds [
        { import_id := 1, distribuidora_nome := "B", ano := 2023, camada := none,
          status := .queued, linhas_processadas := 0, data_inicio := none,
          data_fim := none, observacoes := none, erro := some "old" },
        { import_id := 2, distribuidora_nome := "A", ano := 2023, camada := none,
          status := .running, linhas_processadas := 0, data_inicio := some 5,
          data_fim := none, observacoes := none, erro := none }]).Nodup)
    ∧ ((claimBatch [
        { import_id := 1, distribuidora_nome := "B", ano := 2023, camada := none,
          status := .queued, linhas_processadas := 0, data_inicio := none,
          data_fim := none, observacoes := none, erro := some "old" },
        { import_id := 2, distribuidora_nome := "A", ano := 2023, camada := none,
          status := .running, linhas_processadas := 0, data_inicio := some 5,
          data_fim := none, observacoes := none, erro := none }] 2 7).1.length ≤ 2) := by
  constructor
  · decide
  · exact (claimBatch_contract _ 2 7 (by decide)).1

theorem execClaimGo_abort (batch now k : Nat) (committed : List Job) :
    ∀ (mids : List ClaimStmt) (i : Nat) (selected : List Job) (pending : List Nat),
      (∀ s ∈ mids, s ≠ .commitStmt) → i ≤ k → k < i + mids.length + 1 →
      execClaimGo batch now (some k) committed selected pending i
        (mids ++ [.commitStmt]) = (committed, none) := by
  intro mids
  induction mids with
  | nil =>
    intro i selected pending _ hge hlt
    simp at hlt
    have : k = i := by omega
    subst this
    simp [execClaimGo]
  | cons s rest ih =>
    intro i selected pending hnc hge hlt
    by_cases hki : k = i
    · subst hki
      simp [execClaimGo]
    · have hge' : i + 1 ≤ k := by omega
      rw [List.cons_append]
      show execClaimGo batch now (some k) committed selected pending i
        (s :: (rest ++ [.commitStmt])) = (committed, none)
      unfold execClaimGo
      rw [if_neg (show ¬(some k = some i) by simp [hki])]
      cases s with
      | selectStmt =>
        exact ih (i + 1) _ _ (fun t ht => hnc t (List.mem_cons_of_mem _ ht)) hge'
          (by simp at hlt ⊢; omega)
      | updateStmt id =>
        exact ih (i + 1) _ _ (fun t ht => hnc t (List.mem_cons_of_mem _ ht)) hge'
          (by simp at hlt ⊢; omega)
      | commitStmt => exact absurd rfl (hnc _ (List.mem_cons_self _ _))

theorem execClaimGo_commit (batch now : Nat) (committed selected : List Job) :
    ∀ (jobs : List Job) (pending : List Nat) (i : Nat),
      execClaimGo batch now none committed selected pending i
        ((jobs.map fun j => ClaimStmt.updateStmt j.import_id) ++ [.commitStmt]) =
        (markRunning now (pending ++ storeIds jobs) committed, some selected) := by
  intro jobs
  induction jobs with
  | nil =>
    intro pending i
    simp [execClaimGo, storeIds]
  | cons j rest ih =>
    intro pending i
    rw [List.map_cons, List.cons_append]
    show execClaimGo batch now none committed selected pending i
      (ClaimStmt.updateStmt j.import_id :: _) = _
    unfold execClaimGo
    rw [if_neg (by simp)]
    show execClaimGo batch now none committed selected (pending ++ [j.import_id]) (i + 1)
      ((rest.map fun j => ClaimStmt.updateStmt j.import_id) ++ [ClaimStmt.commitStmt]) = _
    rw [ih (pending ++ [j.import_id]) (i + 1)]
    have : pending ++ [j.import_id] ++ storeIds rest =
        pending ++ storeIds (j :: rest) := by
      simp [storeIds]
    rw [this]

/-- C3: the claim is atomic with respect to store failure. If any
statement of the claiming transaction fails (failure injected at any
index k inside the transaction, COMMIT included), the attempt returns no
jobs and every row of the committed store is exactly as before the
attempt; and the attempt retried on that unchanged store (next loop
iteration, no failure) performs precisely the atomic ClaimBatch, so no
job is ever left marked running without having been returned to a
caller. -/
theorem claim_atomicity (store : List Job) (batch now k : Nat)
    (hk : k < (claimStmts store batch).length) :
    execClaim store batch now (some k) = (store, none)
    ∧ execClaim store batch now none =
        ((claimBatch store batch now).2, some (claimBatch store batch now).1) := by
  constructor
  · unfold execClaim
    unfold claimStmts at hk ⊢
    rw [show ClaimStmt.selectStmt ::
        (((selectQueued store [] batch).map fun j => ClaimStmt.updateStmt j.import_id)
          ++ [ClaimStmt.commitStmt]) =
        (ClaimStmt.selectStmt ::
          ((selectQueued store [] batch).map fun j => ClaimStmt.updateStmt j.import_id))
          ++ [ClaimStmt.commitStmt] from rfl]
    apply execClaimGo_abort
    · intro s hs
      rcases List.mem_cons.mp hs with rfl | hs'
      · intro h; cases h
      · obtain ⟨j, _, rfl⟩ := List.mem_map.mp hs'
        intro h; cases h
    · omega
    · simp at hk ⊢
      omega
  · unfold execClaim claimStmts
    show execClaimGo batch now none store _ _ _ _ = _
    unfold execClaimGo
    rw [if_neg (by simp)]
    rw [execClaimGo_commit]
    rfl

/-- Witness for C3: failure injected at the UPDATE statement of a
one-row claim leaves the concrete store unchanged. -/
theorem claim_atomicity_witness :
    (1 < (claimStmts [
      { import_id := 1, distribuidora_nome := "A", ano := 2023, camada := none,
        status := .queued, linhas_processadas := 0, data_inicio := none,
        data_fim := none, observacoes := none, erro := none }] 2).length)
    ∧ execClaim [
      { import_id := 1, distribuidora_nome := "A", ano := 2023, camada := none,
        status := .queued, linhas_processadas := 0, data_inicio := none,
        data_fim := none, observacoes := none, erro := none }] 2 9 (some 1) =
      ([
      { import_id := 1, distribuidora_nome := "A", ano := 2023, camada := none,
        status := .queued, linhas_processadas := 0, data_inicio := none,
        data_fim := none, observacoes := none, erro := none }], none) :=
  ⟨by decide, (claim_atomicity _ 2 9 1 (by decide)).1⟩

theorem applyRow_import_id (now : Nat) (oc : Outcome) (j : Job) :
    (applyRow now oc j).import_id = j.import_id := by
  cases oc <;> simp [applyRow]

theorem storeRow_applyOutcome (now id : Nat) (oc : Outcome) (store : List Job)
    (id' : Nat) :
    storeRow (applyOutcome now id oc store) id' =
      (storeRow store id').map fun j =>
        if j.import_id == id then applyRow now oc j else j := by
  unfold applyOutcome
  refine storeRow_map (fun j => ?_) store id'
  split
  · exact applyRow_import_id now oc j
  · rfl

theorem processJob_miss_eq (e : Env) (j : Job)
    (hmiss : getUrl e.catalog j.distribuidora_nome j.ano = none) :
    processJob e j = (j.import_id, .finalizeErr "URL não encontrada na view") := by
  unfold processJob
  rw [hmiss]

theorem processJob_success_eq (e : Env) (j : Job) (url : String) (status : Nat)
    (files : List String)
    (hurl : getUrl e.catalog j.distribuidora_nome j.ano = some url)
    (hok : 200 ≤ status ∧ status ≤ 299)
    (hfetch : e.fetch url = .resp status true)
    (hext : e.extract url = .ok files) :
    processJob e j =
      (j.import_id,
        .finalizeDone (inferCamada files) ("Arquivos em: " ++ unzipDest e j)) := by
  unfold processJob
  simp only [hurl, hfetch]
  rw [if_neg (by simpa using hok)]
  simp only [Bool.not_true, Bool.false_eq_true, if_false, hext]

/-- C4: for a claimed job whose source URL resolves and whose download
(success status, body present) and extraction succeed, the pipeline
finalizes that job done: the produced update is the done UPDATE for that
job, and the updated row has status done, data_fim set, observacoes
recording the extraction destination directory, and camada overwritten
only when a non-null layer was inferred. -/
theorem pipeline_success_finalizes_done (e : Env) (j : Job) (url : String)
    (status : Nat) (files : List String) (now : Nat)
    (hurl : getUrl e.catalog j.distribuidora_nome j.ano = some url)
    (hok : 200 ≤ status ∧ status ≤ 299)
    (hfetch : e.fetch url = .resp status true)
    (hext : e.extract url = .ok files) :
    processJob e j =
      (j.import_id,
        .finalizeDone (inferCamada files) ("Arquivos em: " ++ unzipDest e j))
    ∧ (applyRow now (processJob e j).2 j).status = .done
    ∧ (applyRow now (processJob e j).2 j).data_fim = some now
    ∧ (applyRow now (processJob e j).2 j).observacoes =
        some ("Arquivos em: " ++ unzipDest e j)
    ∧ (inferCamada files = none → (applyRow now (processJob e j).2 j).camada = j.camada)
    ∧ (∀ c, inferCamada files = some c →
        (applyRow now (processJob e j).2 j).camada = some c) := by
  have hp := processJob_success_eq e j url status files hurl hok hfetch hext
  refine ⟨hp, ?_, ?_, ?_, ?_, ?_⟩
  · rw [hp]; simp [applyRow]
  · rw [hp]; simp [applyRow]
  · rw [hp]; simp [applyRow]
  · intro hn
    rw [hp]
    simp [applyRow, hn, Option.orElse]
  · intro c hc
    rw [hp]
    simp [applyRow, hc, Option.orElse]

/-- Witness for C4 at a concrete environment and job. -/
theorem pipeline_success_finalizes_done_witness :
    (getUrl [{ id := 7, distribuidora := "A", ano := 2023, url := "http-u",
               title := "t" }] "A" 2023 = some "http-u")
    ∧ (applyRow 9
        (processJob
          { catalog := [{ id := 7, distribuidora := "A", ano := 2023, url := "http-u",
                          title := "t" }],
            fetch := fun _ => .resp 200 true,
            extract := fun _ => .ok ["x_UCBT.dat"],
            baseDir := "data" }
          { import_id := 1, distribuidora_nome := "A", ano := 2023, camada := none,
            status := .running, linhas_processadas := 0, data_inicio := some 5,
            data_fim := none, observacoes := none, erro := none }).2
        { import_id := 1, distribuidora_nome := "A", ano := 2023, camada := none,
          status := .running, linhas_processadas := 0, data_inicio := some 5,
          data_fim := none, observacoes := none, erro := none }).status = .done := by
  constructor
  · decide
  · exact (pipeline_success_finalizes_done _ _ "http-u" 200 ["x_UCBT.dat"] 9
      (by decide) (by omega) rfl rfl).2.1

theorem find?_testLayer_append {pre post : List String} {f : String}
    (hpre : ∀ g ∈ pre, testLayer g = false) (hf : testLayer f = true) :
    (pre ++ f :: post).find? testLayer = some f := by
  induction pre with
  | nil =>
    rw [List.nil_append]
    exact List.find?_cons_of_pos _ hf
  | cons a l ih =>
    rw [List.cons_append, List.find?_cons_of_neg _ (by simp [hpre a (List.mem_cons_self a l)])]
    exact ih fun g hg => hpre g (List.mem_cons_of_mem a hg)

/-- C6: the classification scans the top-level extracted entry names for
a case-insensitive substring match against the fixed vocabulary of layer
codes and the first matching entry wins; when no entry matches, the done
UPDATE leaves the stored camada unchanged (a job carrying UCMT keeps
UCMT), and an extraction yielding export_UCBT_2024.dat classifies as
UCBT. -/
theorem layer_classification (pre post files : List String) (f : String)
    (j : Job) (now : Nat) (obs : String)
    (hpre : ∀ g ∈ pre, testLayer g = false) (hf : testLayer f = true)
    (hnone : ∀ g ∈ files, testLayer g = false) (hucmt : j.camada = some "UCMT") :
    inferCamada (pre ++ f :: post) = findCode (upperChars f)
    ∧ inferCamada files = none
    ∧ (applyRow now (.finalizeDone (inferCamada files) obs) j).camada = some "UCMT"
    ∧ inferCamada ["export_UCBT_2024.dat"] = some "UCBT"
    ∧ (applyRow now (.finalizeDone (inferCamada ["export_UCBT_2024.dat"]) obs) j).camada
        = some "UCBT" := by
  have h2 : inferCamada files = none := by
    unfold inferCamada
    rw [List.find?_eq_none.mpr (by intro g hg; simp [hnone g hg])]
  have h4 : inferCamada ["export_UCBT_2024.dat"] = some "UCBT" := by decide
  refine ⟨?_, h2, ?_, h4, ?_⟩
  · unfold inferCamada
    rw [find?_testLayer_append hpre hf]
  · rw [h2]
    simp [applyRow, Option.orElse, hucmt]
  · rw [h4]
    simp [applyRow, Option.orElse]

/-- Witness for C6 at concrete entry lists and a concrete job. -/
theorem layer_classification_witness :
    inferCamada (["readme.txt"] ++ "x_ucat_1.dat" :: ["y_UCMT.dat"]) =
      findCode (upperChars "x_ucat_1.dat")
    ∧ inferCamada ["notas.txt"] = none
    ∧ (applyRow 9 (.finalizeDone (inferCamada ["notas.txt"]) "obs")
        { import_id := 1, distribuidora_nome := "A", ano := 2023,
          camada := some "UCMT", status := .running, linhas_processadas := 0,
          data_inicio := some 5, data_fim := none, observacoes := none,
          erro := none }).camada = some "UCMT"
    ∧ inferCamada ["export_UCBT_2024.dat"] = some "UCBT"
    ∧ (applyRow 9 (.finalizeDone (inferCamada ["export_UCBT_2024.dat"]) "obs")
        { import_id := 1, distribuidora_nome := "A", ano := 2023,
          camada := some "UCMT", status := .running, linhas_processadas := 0,
          data_inicio := some 5, data_fim := none, observacoes := none,
          erro := none }).camada = some "UCBT" :=
  layer_classification ["readme.txt"] ["y_UCMT.dat"] ["notas.txt"] "x_ucat_1.dat"
    { import_id := 1, distribuidora_nome := "A", ano := 2023,
      camada := some "UCMT", status := .running, linhas_processadas := 0,
      data_inicio := some 5, data_fim := none, observacoes := none,
      erro := none } 9 "obs"
    (by decide) (by decide) (by decide) (by decide)

/-- C5: per-job step failures update only the failing job and never
abort the siblings of the same batch: a lookup miss produces the fixed
lookup-miss error update addressed at that job alone; a terminal update
leaves every row with a different id untouched; and a two-job batch
with one lookup miss and one success ends, in either processing order,
with the failing job in error carrying the lookup-miss message and the
succeeding job done. processJob is a total function, so no exception
escapes the processing of a single job. -/
theorem per_job_failure_isolation (e : Env) (now : Nat) (store : List Job)
    (j1 j2 : Job) (url : String) (status : Nat) (files : List String)
    (hids : (storeIds store).Nodup) (h1 : j1 ∈ store) (h2 : j2 ∈ store)
    (hne : j1.import_id ≠ j2.import_id)
    (hmiss : getUrl e.catalog j1.distribuidora_nome j1.ano = none)
    (hurl : getUrl e.catalog j2.distribuidora_nome j2.ano = some url)
    (hok : 200 ≤ status ∧ status ≤ 299)
    (hfetch : e.fetch url = .resp status true)
    (hext : e.extract url = .ok files) :
    processJob e j1 = (j1.import_id, .finalizeErr "URL não encontrada na view")
    ∧ (∀ (id : Nat) (oc : Outcome) (st : List Job) (r : Job),
        r ∈ st → r.import_id ≠ id → r ∈ applyOutcome now id oc st)
    ∧ (∀ order : List Job, order = [j1, j2] ∨ order = [j2, j1] →
        jobStatus (processBatch e now order store) j1.import_id = some .error
        ∧ (storeRow (processBatch e now order store) j1.import_id).map (·.erro) =
            some (some "URL não encontrada na view")
        ∧ jobStatus (processBatch e now order store) j2.import_id = some .done) := by
  have hp1 := processJob_miss_eq e j1 hmiss
  have hp2 := processJob_success_eq e j2 url status files hurl hok hfetch hext
  have hbeq12 : (j1.import_id == j2.import_id) = false := by simpa using hne
  have hbeq21 : (j2.import_id == j1.import_id) = false := by
    simpa using Ne.symm hne
  have hne21 : j2.import_id ≠ j1.import_id := Ne.symm hne
  have hrow1 : storeRow store j1.import_id = some j1 := storeRow_eq_of_mem hids h1
  have hrow2 : storeRow store j2.import_id = some j2 := storeRow_eq_of_mem hids h2
  refine ⟨hp1, ?_, ?_⟩
  · intro id oc st r hr hrne
    unfold applyOutcome
    have hfix : (fun j => if j.import_id == id then applyRow now oc j else j) r = r := by
      simp only [if_neg (show ¬((r.import_id == id) = true) by simpa using hrne)]
    exact hfix ▸ List.mem_map_of_mem _ hr
  · intro order horder
    rcases horder with rfl | rfl
    · have hb : processBatch e now [j1, j2] store =
          applyOutcome now j2.import_id
            (.finalizeDone (inferCamada files) ("Arquivos em: " ++ unzipDest e j2))
            (applyOutcome now j1.import_id
              (.finalizeErr "URL não encontrada na view") store) := by
        simp [processBatch, hp1, hp2]
      refine ⟨?_, ?_, ?_⟩ <;>
        simp [jobStatus, hb, storeRow_applyOutcome, hrow1, hrow2,
          applyRow_import_id, hbeq12, hbeq21, hne, hne21, applyRow]
    · have hb : processBatch e now [j2, j1] store =
          applyOutcome now j1.import_id
            (.finalizeErr "URL não encontrada na view")
            (applyOutcome now j2.import_id
              (.finalizeDone (inferCamada files)
                ("Arquivos em: " ++ unzipDest e j2)) store) := by
        simp [processBatch, hp1, hp2]
      refine ⟨?_, ?_, ?_⟩ <;>
        simp [jobStatus, hb, storeRow_applyOutcome, hrow1, hrow2,
          applyRow_import_id, hbeq12, hbeq21, hne, hne21, applyRow]

/-- Witness for C5: a concrete two-job batch, one lookup miss and one
success, processed in the order with the failing job first. -/
theorem per_job_failure_isolation_witness :
    jobStatus (processBatch
      { catalog := [{ id := 7, distribuidora := "A", ano := 2023, url := "u",
                      title := "t" }],
        fetch := fun _ => .resp 200 true,
        extract := fun _ => .ok ["f_UCAT.dat"],
        baseDir := "data" } 9
      [{ import_id := 3, distribuidora_nome := "Z", ano := 2024, camada := none,
         status := .running, linhas_processadas := 0, data_inicio := some 5,
         data_fim := none, observacoes := none, erro := none },
       { import_id := 4, distribuidora_nome := "A", ano := 2023, camada := none,
         status := .running, linhas_processadas := 0, data_inicio := some 5,
         data_fim := none, observacoes := none, erro := none }]
      [{ import_id := 3, distribuidora_nome := "Z", ano := 2024, camada := none,
         status := .running, linhas_processadas := 0, data_inicio := some 5,
         data_fim := none, observacoes := none, erro := none },
       { import_id := 4, distribuidora_nome := "A", ano := 2023, camada := none,
         status := .running, linhas_processadas := 0, data_inicio := some 5,
         data_fim := none, observacoes := none, erro := none }]) 3 = some .error
    ∧ (storeRow (processBatch
      { catalog := [{ id := 7, distribuidora := "A", ano := 2023, url := "u",
                      title := "t" }],
        fetch := fun _ => .resp 200 true,
        extract := fun _ => .ok ["f_UCAT.dat"],
        baseDir := "data" } 9
      [{ import_id := 3, distribuidora_nome := "Z", ano := 2024, camada := none,
         status := .running, linhas_processadas := 0, data_inicio := some 5,
         data_fim := none, observacoes := none, erro := none },
       { import_id := 4, distribuidora_nome := "A", ano := 2023, camada := none,
         status := .running, linhas_processadas := 0, data_inicio := some 5,
         data_fim := none, observacoes := none, erro := none }]
      [{ import_id := 3, distribuidora_nome := "Z", ano := 2024, camada := none,
         status := .running, linhas_processadas := 0, data_inicio := some 5,
         data_fim := none, observacoes := none, erro := none },
       { import_id := 4, distribuidora_nome := "A", ano := 2023, camada := none,
         status := .running, linhas_processadas := 0, data_inicio := some 5,
         data_fim := none, observacoes := none, erro := none }]) 3).map (·.erro) =
        some (some "URL não encontrada na view")
    ∧ jobStatus (processBatch
      { catalog := [{ id := 7, distribuidora := "A", ano := 2023, url := "u",
                      title := "t" }],
        fetch := fun _ => .resp 200 true,
        extract := fun _ => .ok ["f_UCAT.dat"],
        baseDir := "data" } 9
      [{ import_id := 3, distribuidora_nome := "Z", ano := 2024, camada := none,
         status := .running, linhas_processadas := 0, data_inicio := some 5,
         data_fim := none, observacoes := none, erro := none },
       { import_id := 4, distribuidora_nome := "A", ano := 2023, camada := none,
         status := .running, linhas_processadas := 0, data_inicio := some 5,
         data_fim := none, observacoes := none, erro := none }]
      [{ import_id := 3, distribuidora_nome := "Z", ano := 2024, camada := none,
         status := .running, linhas_processadas := 0, data_inicio := some 5,
         data_fim := none, observacoes := none, erro := none },
       { import_id := 4, distribuidora_nome := "A", ano := 2023, camada := none,
         status := .running, linhas_processadas := 0, data_inicio := some 5,
         data_fim := none, observacoes := none, erro := none }]) 4 = some .done :=
  (per_job_failure_isolation _ 9 _ _ _ "u" 200 ["f_UCAT.dat"]
    (by decide) (by decide) (by decide) (by decide) (by decide) (by decide)
    (by omega) rfl rfl).2.2 _ (Or.inl rfl)

theorem setPhase_cons (w : Nat × Phase) (ws : List (Nat × Phase)) (t : Nat)
    (p : Phase) :
    setPhase (w :: ws) t p =
      (if w.1 == t then (w.1, p) else w) :: setPhase ws t p := rfl

theorem mem_iff_contains {l : List Nat} {x : Nat} : x ∈ l ↔ l.contains x = true := by
  simp [List.contains_eq_any_beq, List.any_eq_true]

theorem storeRow_id {store : List Job} {id : Nat} {r : Job}
    (h : storeRow store id = some r) : r.import_id = id := by
  unfold storeRow at h
  simpa using List.find?_some h

theorem storeIds_markRunning (now : Nat) (ids : List Nat) (store : List Job) :
    storeIds (markRunning now ids store) = storeIds store := by
  unfold storeIds markRunning
  rw [List.map_map]
  congr 1
  funext j
  simp only [Function.comp]
  unfold markRow
  split <;> rfl

theorem storeIds_applyOutcome (now id : Nat) (oc : Outcome) (store : List Job) :
    storeIds (applyOutcome now id oc store) = storeIds store := by
  unfold storeIds applyOutcome
  rw [List.map_map]
  congr 1
  funext j
  simp only [Function.comp]
  split
  · exact applyRow_import_id now oc j
  · rfl

theorem applyRow_status (now : Nat) (oc : Outcome) (j : Job) :
    (applyRow now oc j).status = outcomeStatus oc := by
  cases oc <;> simp [applyRow, outcomeStatus]

theorem jobStatus_markRunning (now : Nat) (ids : List Nat) (store : List Job)
    (id : Nat) :
    jobStatus (markRunning now ids store) id =
      (jobStatus store id).map fun st => if ids.contains id then .running else st := by
  unfold jobStatus
  rw [storeRow_markRunning]
  cases hr : storeRow store id with
  | none => rfl
  | some r =>
    have hid := storeRow_id hr
    simp only [Option.map_some']
    by_cases hc : id ∈ ids
    · simp [markRow, hid, hc]
    · simp [markRow, hid, hc]

theorem jobStatus_applyOutcome (now id0 : Nat) (oc : Outcome) (store : List Job)
    (id : Nat) :
    jobStatus (applyOutcome now id0 oc store) id =
      (jobStatus store id).map fun st => if id = id0 then outcomeStatus oc else st := by
  unfold jobStatus
  rw [storeRow_applyOutcome]
  cases hr : storeRow store id with
  | none => rfl
  | some r =>
    have hid := storeRow_id hr
    simp only [Option.map_some']
    by_cases hc : id = id0
    · simp [hid, hc, applyRow_status]
    · simp [hid, hc]

theorem pairs_nodup_fst {l : List (Nat × Nat)} (h : (l.map (·.1)).Nodup)
    {id a b : Nat} (ha : (id, a) ∈ l) (hb : (id, b) ∈ l) : a = b := by
  induction l with
  | nil => cases ha
  | cons p rest ih =>
    rw [List.map_cons, List.nodup_cons] at h
    rcases List.mem_cons.mp ha with rfl | ha' <;>
      rcases List.mem_cons.mp hb with hb' | hb'
    · simp at hb'
      exact hb'.symm
    · exact absurd (List.mem_map_of_mem (·.1) hb') (by simpa using h.1)
    · rw [← hb'] at h
      exact absurd (List.mem_map_of_mem (·.1) ha') (by simpa using h.1)
    · exact ih h.2 ha' hb'

theorem lookupPhase_setPhase_self {ws : List (Nat × Phase)} {t : Nat} {q : Phase}
    (p : Phase) (h : lookupPhase ws t = some q) :
    lookupPhase (setPhase ws t p) t = some p := by
  induction ws with
  | nil => cases h
  | cons w rest ih =>
    rw [setPhase_cons]
    by_cases hw : (w.1 == t) = true
    · rw [if_pos hw]
      show (if (w.1 == t) = true then some p
        else lookupPhase (setPhase rest t p) t) = some p
      rw [if_pos hw]
    · rw [if_neg hw]
      show (if (w.1 == t) = true then some w.2
        else lookupPhase (setPhase rest t p) t) = some p
      rw [if_neg hw]
      apply ih
      have h2 : (if (w.1 == t) = true then some w.2 else lookupPhase rest t) = some q := h
      rwa [if_neg hw] at h2

theorem lookupPhase_setPhase_ne {ws : List (Nat × Phase)} {t u : Nat}
    (p : Phase) (hne : u ≠ t) :
    lookupPhase (setPhase ws t p) u = lookupPhase ws u := by
  induction ws with
  | nil => rfl
  | cons w rest ih =>
    rw [setPhase_cons]
    by_cases hw : (w.1 == t) = true
    · have hwt : w.1 = t := by simpa using hw
      have hu : (w.1 == u) = false := by
        simp only [beq_eq_false_iff_ne, ne_eq, hwt]
        exact fun h2 => hne h2.symm
      rw [if_pos hw]
      show (if (w.1 == u) = true then some p
        else lookupPhase (setPhase rest t p) u) = lookupPhase (w :: rest) u
      rw [if_neg (by simp [hu])]
      show lookupPhase (setPhase rest t p) u =
        (if (w.1 == u) = true then some w.2 else lookupPhase rest u)
      rw [if_neg (by simp [hu])]
      exact ih
    · rw [if_neg hw]
      show (if (w.1 == u) = true then some w.2
        else lookupPhase (setPhase rest t p) u) = lookupPhase (w :: rest) u
      show (if (w.1 == u) = true then some w.2
        else lookupPhase (setPhase rest t p) u) =
        (if (w.1 == u) = true then some w.2 else lookupPhase rest u)
      by_cases hu : (w.1 == u) = true
      · rw [if_pos hu, if_pos hu]
      · rw [if_neg hu, if_neg hu]
        exact ih

theorem lookupPhase_init_idle {ws : List Nat} {u : Nat} {p : Phase}
    (h : lookupPhase (ws.map fun t => (t, Phase.idle)) u = some p) : p = .idle := by
  induction ws with
  | nil => cases h
  | cons w rest ih =>
    rw [List.map_cons] at h
    have h2 : (if (w == u) = true then some Phase.idle
      else lookupPhase (rest.map fun t => (t, Phase.idle)) u) = some p := h
    by_cases hw : (w == u) = true
    · rw [if_pos hw] at h2
      exact (Option.some.inj h2).symm
    · rw [if_neg hw] at h2
      exact ih h2

theorem selectQueued_ids_spec {store : List Job} {locked : List Nat} {batch : Nat}
    (hn : (storeIds store).Nodup) {id : Nat}
    (h : id ∈ storeIds (selectQueued store locked batch)) :
    jobStatus store id = some .queued ∧ id ∉ locked := by
  obtain ⟨j, hj, rfl⟩ := List.mem_map.mp h
  obtain ⟨hjs, hq, hc⟩ := mem_selectQueued hj
  constructor
  · unfold jobStatus
    rw [storeRow_eq_of_mem hn hjs]
    simp [hq]
  · intro hmem
    rw [mem_iff_contains.mp hmem] at hc
    simp at hc

theorem markRunning_queued_iff {now : Nat} {ids : List Nat} {store : List Job}
    {id : Nat} :
    jobStatus (markRunning now ids store) id = some .queued ↔
      (jobStatus store id = some .queued ∧ id ∉ ids) := by
  rw [jobStatus_markRunning]
  cases ho : jobStatus store id with
  | none => simp
  | some st =>
    by_cases hc : id ∈ ids
    · simp [hc]
    · simp [hc]

theorem applyOutcome_not_queued {now id0 : Nat} {oc : Outcome} {store : List Job}
    {id : Nat} (h : jobStatus (applyOutcome now id0 oc store) id = some .queued) :
    jobStatus store id = some .queued ∧ id ≠ id0 := by
  rw [jobStatus_applyOutcome] at h
  cases ho : jobStatus store id with
  | none => rw [ho] at h; cases h
  | some st =>
    rw [ho] at h
    simp only [Option.map_some'] at h
    have h2 := Option.some.inj h
    by_cases hc : id = id0
    · rw [if_pos hc] at h2
      cases oc <;> simp [outcomeStatus] at h2
    · rw [if_neg hc] at h2
      exact ⟨congrArg some h2, hc⟩

theorem lockedIds_mk (st : List Job) (lk : List (Nat × Nat))
    (ws : List (Nat × Phase)) (h : List (List Nat)) :
    lockedIds ⟨st, lk, ws, h⟩ = lk.map (·.1) := rfl

theorem inv_select {batch : Nat} {s : Sys} {t : Nat} (hi : WInv s)
    (hl : lookupPhase s.workers t = some .idle) :
    WInv ⟨s.store,
          s.locks ++
            (storeIds (selectQueued s.store (lockedIds s) batch)).map fun i => (i, t),
          setPhase s.workers t
            (.selected (storeIds (selectQueued s.store (lockedIds s) batch))),
          s.hist ++ [storeIds (selectQueued s.store (lockedIds s) batch)]⟩ := by
  have hids_nodup : (storeIds (selectQueued s.store (lockedIds s) batch)).Nodup :=
    selectQueued_ids_nodup _ _ hi.store_nodup
  have hids_spec : ∀ id ∈ storeIds (selectQueued s.store (lockedIds s) batch),
      jobStatus s.store id = some .queued ∧ id ∉ lockedIds s :=
    fun id h => selectQueued_ids_spec hi.store_nodup h
  have hle : (s.locks ++
      (storeIds (selectQueued s.store (lockedIds s) batch)).map fun i => (i, t)).map
        (·.1) =
      lockedIds s ++ storeIds (selectQueued s.store (lockedIds s) batch) := by
    rw [List.map_append, List.map_map]
    rw [show ((fun x : Nat × Nat => x.1) ∘ fun i : Nat => (i, t)) =
      (fun i : Nat => i) from rfl]
    simp [lockedIds]
  refine ⟨?_, ?_, ?_, ?_, ?_, ?_, ?_, ?_⟩
  · exact hi.store_nodup
  · rw [lockedIds_mk, hle]
    refine List.Nodup.append hi.locks_nodup hids_nodup ?_
    intro a ha hb
    exact (hids_spec a hb).2 ha
  · intro t2 ids2 hl2
    by_cases ht : t2 = t
    · subst ht
      rw [lookupPhase_setPhase_self _ hl] at hl2
      obtain rfl : storeIds (selectQueued s.store (lockedIds s) batch) = ids2 :=
        Phase.selected.inj (Option.some.inj hl2)
      refine ⟨hids_nodup, fun id hid => ⟨?_, (hids_spec id hid).1⟩⟩
      exact List.mem_append_right _ (List.mem_map_of_mem (fun i => (i, t2)) hid)
    · rw [lookupPhase_setPhase_ne _ ht] at hl2
      obtain ⟨hn, hp⟩ := hi.sel_spec t2 ids2 hl2
      exact ⟨hn, fun id hid =>
        ⟨List.mem_append_left _ (hp id hid).1, (hp id hid).2⟩⟩
  · intro id u hmem
    rcases List.mem_append.mp hmem with hm | hm
    · obtain ⟨ids0, ho, hin⟩ := hi.lock_owner id u hm
      have hut : u ≠ t := by
        rintro rfl
        rw [hl] at ho
        cases Option.some.inj ho
      exact ⟨ids0, by rw [lookupPhase_setPhase_ne _ hut]; exact ho, hin⟩
    · obtain ⟨i, hin, heq⟩ := List.mem_map.mp hm
      have h1 : i = id := congrArg Prod.fst heq
      have h2 : t = u := congrArg Prod.snd heq
      subst h1
      subst h2
      exact ⟨_, lookupPhase_setPhase_self _ hl, hin⟩
  · intro t2 pending hl2
    by_cases ht : t2 = t
    · subst ht
      rw [lookupPhase_setPhase_self _ hl] at hl2
      simp at hl2
    · rw [lookupPhase_setPhase_ne _ ht] at hl2
      obtain ⟨hn, hp⟩ := hi.pend_spec t2 pending hl2
      refine ⟨hn, fun id hid => ⟨(hp id hid).1, ?_⟩⟩
      rw [lockedIds_mk, hle]
      intro hmem
      rcases List.mem_append.mp hmem with hm | hm
      · exact (hp id hid).2 hm
      · have hq := (hids_spec id hm).1
        rw [(hp id hid).1] at hq
        cases Option.some.inj hq
  · intro t2 u pt pu hne hlt hlu
    by_cases ht : t2 = t
    · subst ht
      rw [lookupPhase_setPhase_self _ hl] at hlt
      simp at hlt
    · by_cases hu : u = t
      · subst hu
        rw [lookupPhase_setPhase_self _ hl] at hlu
        simp at hlu
      · rw [lookupPhase_setPhase_ne _ ht] at hlt
        rw [lookupPhase_setPhase_ne _ hu] at hlu
        exact hi.pend_disjoint t2 u pt pu hne hlt hlu
  · show (s.hist ++ [storeIds (selectQueued s.store (lockedIds s) batch)]).flatten.Nodup
    rw [List.flatten_append]
    simp only [List.flatten_cons, List.flatten_nil, List.append_nil]
    refine List.Nodup.append hi.hist_nodup hids_nodup ?_
    intro a ha hb
    rcases hi.hist_settled a ha with hlk | hnq
    · exact (hids_spec a hb).2 hlk
    · exact hnq (hids_spec a hb).1
  · intro id hid
    rw [List.flatten_append] at hid
    simp only [List.flatten_cons, List.flatten_nil, List.append_nil] at hid
    rw [lockedIds_mk, hle]
    rcases List.mem_append.mp hid with hm | hm
    · rcases hi.hist_settled id hm with hlk | hnq
      · exact Or.inl (List.mem_append_left _ hlk)
      · exact Or.inr hnq
    · exact Or.inl (List.mem_append_right _ hm)

theorem inv_commit {s : Sys} {t now : Nat} {ids : List Nat} (hi : WInv s)
    (hl : lookupPhase s.workers t = some (.selected ids)) :
    WInv ⟨markRunning now ids s.store,
          s.locks.filter fun p => p.2 != t,
          setPhase s.workers t (.committed ids),
          s.hist⟩ := by
  obtain ⟨hids_nodup, hprops⟩ := hi.sel_spec t ids hl
  have hq : ∀ id ∈ ids, jobStatus s.store id = some .queued :=
    fun id h => (hprops id h).2
  have hlk : ∀ id ∈ ids, (id, t) ∈ s.locks := fun id h => (hprops id h).1
  have hfsub : ∀ p : Nat × Nat, p ∈ s.locks.filter (fun p => p.2 != t) →
      p ∈ s.locks ∧ p.2 ≠ t := by
    intro p hp
    rw [List.mem_filter] at hp
    exact ⟨hp.1, by simpa using hp.2⟩
  have hlsub : ∀ x : Nat,
      x ∈ (s.locks.filter fun p => p.2 != t).map (·.1) → x ∈ lockedIds s :=
    fun x hx => (List.Sublist.map (·.1) (List.filter_sublist s.locks)).subset hx
  refine ⟨?_, ?_, ?_, ?_, ?_, ?_, ?_, ?_⟩
  · rw [storeIds_markRunning]
    exact hi.store_nodup
  · rw [lockedIds_mk]
    have h0 : (s.locks.map (fun p : Nat × Nat => p.1)).Nodup := hi.locks_nodup
    exact (List.Sublist.map (fun p : Nat × Nat => p.1)
      (List.filter_sublist s.locks)).nodup h0
  · intro t2 ids2 hl2
    by_cases ht : t2 = t
    · subst ht
      rw [lookupPhase_setPhase_self _ hl] at hl2
      simp at hl2
    · rw [lookupPhase_setPhase_ne _ ht] at hl2
      obtain ⟨hn, hp⟩ := hi.sel_spec t2 ids2 hl2
      refine ⟨hn, fun id hid => ⟨?_, ?_⟩⟩
      · rw [List.mem_filter]
        exact ⟨(hp id hid).1, by simpa using ht⟩
      · have hnm : id ∉ ids := by
          intro hmem
          exact ht (pairs_nodup_fst hi.locks_nodup (hp id hid).1 (hlk id hmem))
        rw [markRunning_queued_iff]
        exact ⟨(hp id hid).2, hnm⟩
  · intro id u hmem
    obtain ⟨hm, hne⟩ := hfsub _ hmem
    obtain ⟨ids0, ho, hin⟩ := hi.lock_owner id u hm
    refine ⟨ids0, ?_, hin⟩
    rw [lookupPhase_setPhase_ne _ hne]
    exact ho
  · intro t2 pending hl2
    by_cases ht : t2 = t
    · subst ht
      rw [lookupPhase_setPhase_self _ hl] at hl2
      obtain rfl : ids = pending := Phase.committed.inj (Option.some.inj hl2)
      refine ⟨hids_nodup, fun id hid => ⟨?_, ?_⟩⟩
      · rw [jobStatus_markRunning, hq id hid]
        simp [hid]
      · rw [lockedIds_mk]
        intro hmem
        obtain ⟨⟨a, b⟩, hp, rfl⟩ := List.mem_map.mp hmem
        obtain ⟨hpl, hpt⟩ := hfsub _ hp
        exact hpt (pairs_nodup_fst hi.locks_nodup hpl (hlk _ hid))
    · rw [lookupPhase_setPhase_ne _ ht] at hl2
      obtain ⟨hn, hp⟩ := hi.pend_spec t2 pending hl2
      refine ⟨hn, fun id hid => ⟨?_, ?_⟩⟩
      · rw [jobStatus_markRunning, (hp id hid).1]
        simp
      · rw [lockedIds_mk]
        intro hmem
        exact (hp id hid).2 (hlsub id hmem)
  · intro t2 u pt pu hne hlt hlu
    by_cases ht : t2 = t
    · subst ht
      rw [lookupPhase_setPhase_self _ hl] at hlt
      obtain rfl : ids = pt := Phase.committed.inj (Option.some.inj hlt)
      have hu : u ≠ t2 := fun h => hne h.symm
      rw [lookupPhase_setPhase_ne _ hu] at hlu
      obtain ⟨_, hpu⟩ := hi.pend_spec u pu hlu
      intro id hid hmem
      have h1 := (hpu id hmem).1
      rw [hq id hid] at h1
      simp at h1
    · by_cases hu : u = t
      · subst hu
        rw [lookupPhase_setPhase_self _ hl] at hlu
        obtain rfl : ids = pu := Phase.committed.inj (Option.some.inj hlu)
        rw [lookupPhase_setPhase_ne _ ht] at hlt
        obtain ⟨_, hpt⟩ := hi.pend_spec t2 pt hlt
        intro id hid hmem
        have h1 := (hpt id hid).1
        rw [hq id hmem] at h1
        simp at h1
      · rw [lookupPhase_setPhase_ne _ ht] at hlt
        rw [lookupPhase_setPhase_ne _ hu] at hlu
        exact hi.pend_disjoint t2 u pt pu hne hlt hlu
  · exact hi.hist_nodup
  · intro id hid
    rw [lockedIds_mk]
    rcases hi.hist_settled id hid with hlk2 | hnq
    · obtain ⟨p, hp, hfst⟩ := List.mem_map.mp hlk2
      by_cases hpt : p.2 = t
      · right
        have hplk : (id, t) ∈ s.locks := by
          rw [← hfst, ← hpt]
          exact hp
        obtain ⟨ids0, ho, hin⟩ := hi.lock_owner id t hplk
        rw [hl] at ho
        obtain rfl : ids = ids0 := Phase.selected.inj (Option.some.inj ho)
        intro hcon
        exact (markRunning_queued_iff.mp hcon).2 hin
      · left
        refine List.mem_map.mpr ⟨p, ?_, hfst⟩
        rw [List.mem_filter]
        exact ⟨hp, by simpa using hpt⟩
    · right
      intro hcon
      exact hnq (markRunning_queued_iff.mp hcon).1

theorem inv_finalize {s : Sys} {t id0 now : Nat} {oc : Outcome}
    {pending : List Nat} (hi : WInv s)
    (hl : lookupPhase s.workers t = some (.committed pending))
    (hmem : id0 ∈ pending) :
    WInv ⟨applyOutcome now id0 oc s.store,
          s.locks,
          setPhase s.workers t (.committed (pending.erase id0)),
          s.hist⟩ := by
  obtain ⟨hpn, hpp⟩ := hi.pend_spec t pending hl
  have hrun0 : jobStatus s.store id0 = some .running := (hpp id0 hmem).1
  refine ⟨?_, ?_, ?_, ?_, ?_, ?_, ?_, ?_⟩
  · rw [storeIds_applyOutcome]
    exact hi.store_nodup
  · exact hi.locks_nodup
  · intro t2 ids2 hl2
    by_cases ht : t2 = t
    · subst ht
      rw [lookupPhase_setPhase_self _ hl] at hl2
      simp at hl2
    · rw [lookupPhase_setPhase_ne _ ht] at hl2
      obtain ⟨hn, hp⟩ := hi.sel_spec t2 ids2 hl2
      refine ⟨hn, fun id hid => ⟨(hp id hid).1, ?_⟩⟩
      have hne0 : id ≠ id0 := by
        intro h
        have h1 := (hp id hid).2
        rw [h, hrun0] at h1
        simp at h1
      rw [jobStatus_applyOutcome, (hp id hid).2]
      simp [hne0]
  · intro id u hmem2
    obtain ⟨ids0, ho, hin⟩ := hi.lock_owner id u hmem2
    have hut : u ≠ t := by
      rintro rfl
      rw [hl] at ho
      simp at ho
    exact ⟨ids0, by rw [lookupPhase_setPhase_ne _ hut]; exact ho, hin⟩
  · intro t2 pending2 hl2
    by_cases ht : t2 = t
    · subst ht
      rw [lookupPhase_setPhase_self _ hl] at hl2
      obtain rfl : pending.erase id0 = pending2 :=
        Phase.committed.inj (Option.some.inj hl2)
      refine ⟨hpn.erase id0, fun id hid => ?_⟩
      obtain ⟨hne0, hidp⟩ := (List.Nodup.mem_erase_iff hpn).mp hid
      refine ⟨?_, (hpp id hidp).2⟩
      rw [jobStatus_applyOutcome, (hpp id hidp).1]
      simp [hne0]
    · rw [lookupPhase_setPhase_ne _ ht] at hl2
      obtain ⟨hn, hp⟩ := hi.pend_spec t2 pending2 hl2
      refine ⟨hn, fun id hid => ⟨?_, (hp id hid).2⟩⟩
      have hne0 : id ≠ id0 := fun h =>
        (hi.pend_disjoint t t2 pending pending2 (fun he => ht he.symm) hl hl2
          id0 hmem) (h ▸ hid)
      rw [jobStatus_applyOutcome, (hp id hid).1]
      simp [hne0]
  · intro t2 u pt pu hne hlt hlu
    by_cases ht : t2 = t
    · subst ht
      rw [lookupPhase_setPhase_self _ hl] at hlt
      obtain rfl : pending.erase id0 = pt := Phase.committed.inj (Option.some.inj hlt)
      have hu : u ≠ t2 := fun h => hne h.symm
      rw [lookupPhase_setPhase_ne _ hu] at hlu
      intro id hid
      exact hi.pend_disjoint t2 u pending pu hne hl hlu id (List.erase_subset _ _ hid)
    · by_cases hu : u = t
      · subst hu
        rw [lookupPhase_setPhase_self _ hl] at hlu
        obtain rfl : pending.erase id0 = pu := Phase.committed.inj (Option.some.inj hlu)
        rw [lookupPhase_setPhase_ne _ ht] at hlt
        intro id hid hmem2
        exact hi.pend_disjoint u t2 pending pt (fun he => ht he.symm) hl hlt id
          (List.erase_subset _ _ hmem2) hid
      · rw [lookupPhase_setPhase_ne _ ht] at hlt
        rw [lookupPhase_setPhase_ne _ hu] at hlu
        exact hi.pend_disjoint t2 u pt pu hne hlt hlu
  · exact hi.hist_nodup
  · intro id hid
    rcases hi.hist_settled id hid with hlk | hnq
    · exact Or.inl hlk
    · right
      intro hcon
      exact hnq (applyOutcome_not_queued hcon).1

theorem inv_next {s : Sys} {t : Nat} (hi : WInv s)
    (hl : lookupPhase s.workers t = some (.committed [])) :
    WInv ⟨s.store, s.locks, setPhase s.workers t .idle, s.hist⟩ := by
  refine ⟨hi.store_nodup, hi.locks_nodup, ?_, ?_, ?_, ?_, hi.hist_nodup, ?_⟩
  · intro t2 ids2 hl2
    by_cases ht : t2 = t
    · subst ht
      rw [lookupPhase_setPhase_self _ hl] at hl2
      simp at hl2
    · rw [lookupPhase_setPhase_ne _ ht] at hl2
      exact hi.sel_spec t2 ids2 hl2
  · intro id u hmem
    obtain ⟨ids0, ho, hin⟩ := hi.lock_owner id u hmem
    have hut : u ≠ t := by
      rintro rfl
      rw [hl] at ho
      simp at ho
    exact ⟨ids0, by rw [lookupPhase_setPhase_ne _ hut]; exact ho, hin⟩
  · intro t2 pending hl2
    by_cases ht : t2 = t
    · subst ht
      rw [lookupPhase_setPhase_self _ hl] at hl2
      simp at hl2
    · rw [lookupPhase_setPhase_ne _ ht] at hl2
      exact hi.pend_spec t2 pending hl2
  · intro t2 u pt pu hne hlt hlu
    by_cases ht : t2 = t
    · subst ht
      rw [lookupPhase_setPhase_self _ hl] at hlt
      simp at hlt
    · by_cases hu : u = t
      · subst hu
        rw [lookupPhase_setPhase_self _ hl] at hlu
        simp at hlu
      · rw [lookupPhase_setPhase_ne _ ht] at hlt
        rw [lookupPhase_setPhase_ne _ hu] at hlu
        exact hi.pend_disjoint t2 u pt pu hne hlt hlu
  · exact hi.hist_settled

theorem inv_step {batch : Nat} {s s2 : Sys} {e : Event} (hi : WInv s)
    (h : step batch s e = some s2) : WInv s2 := by
  cases e with
  | selectBatch t =>
    simp only [step] at h
    cases hl : lookupPhase s.workers t with
    | none => rw [hl] at h; cases h
    | some ph =>
      rw [hl] at h
      cases ph with
      | idle =>
        obtain rfl := Option.some.inj h
        exact inv_select hi hl
      | selected ids => cases h
      | committed p => cases h
  | commitClaim t now =>
    simp only [step] at h
    cases hl : lookupPhase s.workers t with
    | none => rw [hl] at h; cases h
    | some ph =>
      rw [hl] at h
      cases ph with
      | idle => cases h
      | selected ids =>
        obtain rfl := Option.some.inj h
        exact inv_commit hi hl
      | committed p => cases h
  | finalize t id0 oc now =>
    simp only [step] at h
    cases hl : lookupPhase s.workers t with
    | none => rw [hl] at h; cases h
    | some ph =>
      rw [hl] at h
      cases ph with
      | idle => cases h
      | selected ids => cases h
      | committed pending =>
        have h2 : (if id0 ∈ pending then
            some (⟨applyOutcome now id0 oc s.store, s.locks,
              setPhase s.workers t (.committed (pending.erase id0)), s.hist⟩ : Sys)
          else none) = some s2 := h
        by_cases hm : id0 ∈ pending
        · rw [if_pos hm] at h2
          obtain rfl := Option.some.inj h2
          exact inv_finalize hi hl hm
        · rw [if_neg hm] at h2
          cases h2
  | nextIter t =>
    simp only [step] at h
    cases hl : lookupPhase s.workers t with
    | none => rw [hl] at h; cases h
    | some ph =>
      rw [hl] at h
      cases ph with
      | idle => cases h
      | selected ids => cases h
      | committed pending =>
        cases pending with
        | nil =>
          obtain rfl := Option.some.inj h
          exact inv_next hi hl
        | cons a l => cases h

theorem inv_init (jobs : List Job) (ws : List Nat)
    (h : (storeIds jobs).Nodup) : WInv (init jobs ws) := by
  refine ⟨h, List.nodup_nil, ?_, ?_, ?_, ?_, List.nodup_nil, ?_⟩
  · intro t ids hl
    have := lookupPhase_init_idle hl
    cases this
  · intro id t hmem
    cases hmem
  · intro t pending hl
    have := lookupPhase_init_idle hl
    cases this
  · intro t u pt pu hne hlt hlu
    have := lookupPhase_init_idle hlt
    cases this
  · intro id hid
    cases hid

theorem inv_run {batch : Nat} :
    ∀ (es : List Event) (s s2 : Sys), WInv s → run batch s es = some s2 →
      WInv s2 := by
  intro es
  induction es with
  | nil =>
    intro s s2 hi h
    obtain rfl := Option.some.inj h
    exact hi
  | cons e rest ih =>
    intro s s2 hi h
    unfold run at h
    cases hstep : step batch s e with
    | none => rw [hstep] at h; cases h
    | some smid =>
      rw [hstep] at h
      exact ih smid s2 (inv_step hi hstep) h

theorem step_status {batch : Nat} {s s2 : Sys} {e : Event} (hi : WInv s)
    (h : step batch s e = some s2) {id : Nat} {st : Status}
    (hst : jobStatus s.store id = some st) :
    ∃ st2, jobStatus s2.store id = some st2 ∧ okTransition st st2 := by
  cases e with
  | selectBatch t =>
    simp only [step] at h
    cases hl : lookupPhase s.workers t with
    | none => rw [hl] at h; cases h
    | some ph =>
      rw [hl] at h
      cases ph with
      | idle =>
        obtain rfl := Option.some.inj h
        exact ⟨st, hst, Or.inl rfl⟩
      | selected ids => cases h
      | committed p => cases h
  | commitClaim t now =>
    simp only [step] at h
    cases hl : lookupPhase s.workers t with
    | none => rw [hl] at h; cases h
    | some ph =>
      rw [hl] at h
      cases ph with
      | idle => cases h
      | selected ids =>
        obtain rfl := Option.some.inj h
        by_cases hm : id ∈ ids
        · have hq : jobStatus s.store id = some .queued :=
            ((hi.sel_spec t ids hl).2 id hm).2
          rw [hst] at hq
          obtain rfl := Option.some.inj hq
          refine ⟨.running, ?_, Or.inr (Or.inl ⟨rfl, rfl⟩)⟩
          show jobStatus (markRunning now ids s.store) id = some .running
          rw [jobStatus_markRunning, hst]
          simp [hm]
        · refine ⟨st, ?_, Or.inl rfl⟩
          show jobStatus (markRunning now ids s.store) id = some st
          rw [jobStatus_markRunning, hst]
          simp [hm]
      | committed p => cases h
  | finalize t id0 oc now =>
    simp only [step] at h
    cases hl : lookupPhase s.workers t with
    | none => rw [hl] at h; cases h
    | some ph =>
      rw [hl] at h
      cases ph with
      | idle => cases h
      | selected ids => cases h
      | committed pending =>
        have h2 : (if id0 ∈ pending then
            some (⟨applyOutcome now id0 oc s.store, s.locks,
              setPhase s.workers t (.committed (pending.erase id0)), s.hist⟩ : Sys)
          else none) = some s2 := h
        by_cases hm : id0 ∈ pending
        · rw [if_pos hm] at h2
          obtain rfl := Option.some.inj h2
          by_cases hid0 : id = id0
          · subst hid0
            have hr : jobStatus s.store id = some .running :=
              ((hi.pend_spec t pending hl).2 id hm).1
            rw [hst] at hr
            obtain rfl := Option.some.inj hr
            refine ⟨outcomeStatus oc, ?_, Or.inr (Or.inr ⟨rfl, ?_⟩)⟩
            · show jobStatus (applyOutcome now id oc s.store) id =
                some (outcomeStatus oc)
              rw [jobStatus_applyOutcome, hst]
              simp
            · cases oc
              · exact Or.inl rfl
              · exact Or.inr rfl
          · refine ⟨st, ?_, Or.inl rfl⟩
            show jobStatus (applyOutcome now id0 oc s.store) id = some st
            rw [jobStatus_applyOutcome, hst]
            simp [hid0]
        · rw [if_neg hm] at h2
          cases h2
  | nextIter t =>
    simp only [step] at h
    cases hl : lookupPhase s.workers t with
    | none => rw [hl] at h; cases h
    | some ph =>
      rw [hl] at h
      cases ph with
      | idle => cases h
      | selected ids => cases h
      | committed pending =>
        cases pending with
        | nil =>
          obtain rfl := Option.some.inj h
          exact ⟨st, hst, Or.inl rfl⟩
        | cons a l => cases h

theorem okTransition_terminal {a b : Status} (ht : a = .done ∨ a = .error)
    (h : okTransition a b) : b = a := by
  rcases h with h1 | ⟨h1, h2⟩ | ⟨h1, h2⟩
  · exact h1.symm
  · rcases ht with h3 | h3 <;> rw [h3] at h1 <;> cases h1
  · rcases ht with h3 | h3 <;> rw [h3] at h1 <;> cases h1

theorem terminal_persists {batch : Nat} :
    ∀ (es : List Event) (s s2 : Sys), WInv s → run batch s es = some s2 →
      ∀ id st, jobStatus s.store id = some st → (st = .done ∨ st = .error) →
      jobStatus s2.store id = some st := by
  intro es
  induction es with
  | nil =>
    intro s s2 hi h id st hst hterm
    obtain rfl := Option.some.inj h
    exact hst
  | cons e rest ih =>
    intro s s2 hi h id st hst hterm
    unfold run at h
    cases hstep : step batch s e with
    | none => rw [hstep] at h; cases h
    | some smid =>
      rw [hstep] at h
      obtain ⟨st2, hst2, htr⟩ := step_status hi hstep hst
      have hb : st2 = st := okTransition_terminal hterm htr
      subst hb
      exact ih smid s2 (inv_step hi hstep) h id st2 hst2 hterm

/-- C1: claim exclusivity. Along any interleaving of the claiming
protocol run by any number of workers against one store, the row-id
batches returned by the claiming SELECTs are pairwise disjoint (no job
is ever claimed by two callers); the claiming SELECT is always enabled
for an idle worker, never waiting on a lock (SKIP LOCKED); and a
batch of a caller excludes every row currently locked by another caller
instead of blocking on it. -/
theorem claim_exclusivity (batch : Nat) (jobs : List Job) (ws : List Nat)
    (es : List Event) (s : Sys) (hjobs : (storeIds jobs).Nodup)
    (hrun : run batch (init jobs ws) es = some s) :
    List.Pairwise List.Disjoint s.hist
    ∧ (∀ t, lookupPhase s.workers t = some .idle →
        ∃ s2, step batch s (.selectBatch t) = some s2)
    ∧ (∀ j ∈ selectQueued s.store (lockedIds s) batch,
        j.import_id ∉ lockedIds s) := by
  have hi := inv_run es (init jobs ws) s (inv_init jobs ws hjobs) hrun
  refine ⟨?_, ?_, ?_⟩
  · exact (List.nodup_flatten.mp hi.hist_nodup).2
  · intro t hl
    refine ⟨⟨s.store,
      s.locks ++ (storeIds (selectQueued s.store (lockedIds s) batch)).map
        fun i => (i, t),
      setPhase s.workers t
        (.selected (storeIds (selectQueued s.store (lockedIds s) batch))),
      s.hist ++ [storeIds (selectQueued s.store (lockedIds s) batch)]⟩, ?_⟩
    simp only [step]
    rw [hl]
  · intro j hj hmem
    have hc := (mem_selectQueued hj).2.2
    rw [mem_iff_contains.mp hmem] at hc
    cases hc

/-- Witness for C1: a concrete two-worker interleaving over three queued
jobs, with overlapping claim transactions. -/
theorem claim_exclusivity_witness :
    ∃ s, run 2 (init wJobs [0, 1]) wEvents = some s
    ∧ (List.Pairwise List.Disjoint s.hist
      ∧ (∀ t, lookupPhase s.workers t = some .idle →
          ∃ s2, step 2 s (.selectBatch t) = some s2)
      ∧ (∀ j ∈ selectQueued s.store (lockedIds s) 2,
          j.import_id ∉ lockedIds s)) :=
  ⟨_, rfl, claim_exclusivity 2 wJobs [0, 1] wEvents _ (by decide) rfl⟩

/-- C7: monotonic status transitions. Under the implemented claim and
update protocol, from any reachable state every enabled step changes the
status of a job only along queued to running or running to done or error
(or leaves it unchanged), and once a job carries a terminal status, no
continuation of the run ever changes it: no job returns to queued or
running from done or error. -/
theorem status_transitions_monotonic (batch : Nat) (jobs : List Job)
    (ws : List Nat) (es : List Event) (s : Sys)
    (hjobs : (storeIds jobs).Nodup)
    (hrun : run batch (init jobs ws) es = some s) :
    (∀ e s2, step batch s e = some s2 → ∀ id st st2,
      jobStatus s.store id = some st → jobStatus s2.store id = some st2 →
      okTransition st st2)
    ∧ (∀ id st, jobStatus s.store id = some st → (st = .done ∨ st = .error) →
      ∀ es2 s2, run batch s es2 = some s2 → jobStatus s2.store id = some st) := by
  have hi := inv_run es (init jobs ws) s (inv_init jobs ws hjobs) hrun
  constructor
  · intro e s2 hstep id st st2 hst hst2
    obtain ⟨st2b, hst2b, htr⟩ := step_status hi hstep hst
    rw [hst2b] at hst2
    obtain rfl := Option.some.inj hst2
    exact htr
  · intro id st hst hterm es2 s2 hrun2
    exact terminal_persists es2 s s2 hi hrun2 id st hst hterm

/-- Witness for C7: the same concrete two-worker interleaving. -/
theorem status_transitions_monotonic_witness :
    ∃ s, run 2 (init wJobs [0, 1]) wEvents = some s
    ∧ ((∀ e s2, step 2 s e = some s2 → ∀ id st st2,
        jobStatus s.store id = some st → jobStatus s2.store id = some st2 →
        okTransition st st2)
      ∧ (∀ id st, jobStatus s.store id = some st → (st = .done ∨ st = .error) →
        ∀ es2 s2, run 2 s es2 = some s2 → jobStatus s2.store id = some st)) :=
  ⟨_, rfl, status_transitions_monotonic 2 wJobs [0, 1] wEvents _ (by decide) rfl⟩

instance (now : Nat) : IsTotal Job (StatusGe now) := ⟨fun _ _ => le_total _ _⟩

instance (now : Nat) : IsTrans Job (StatusGe now) :=
  ⟨fun _ _ _ h1 h2 => le_trans h2 h1⟩

theorem foldr_max_init (l : List Nat) (a : Nat) :
    l.foldr max a = max (l.foldr max 0) a := by
  induction l with
  | nil => simp
  | cons x xs ih =>
    simp only [List.foldr, ih]
    rw [Nat.max_assoc]

theorem statementParamCount_succ (k : Nat) :
    statementParamCount (k + 1) = k * 12 + 11 := by
  induction k with
  | zero => decide
  | succ n ih =>
    unfold statementParamCount at ih ⊢
    rw [show referencedParams (n + 1 + 1) =
      referencedParams (n + 1) ++ rowPlaceholders (n + 1) from rfl]
    rw [List.foldr_append, foldr_max_init, ih]
    have hrow : (rowPlaceholders (n + 1)).foldr max 0 = (n + 1) * 12 + 11 := by
      simp only [rowPlaceholders, List.foldr]
      omega
    rw [hrow]
    omega

theorem enqueueValues_length (rows : List CatalogRow) :
    ∀ i : Nat, (enqueueValues i rows).length = rows.length * 12 := by
  induction rows with
  | nil => intro i; rfl
  | cons r rs ih =>
    intro i
    show (rowValues i r ++ enqueueValues (i + 1) rs).length = (rs.length + 1) * 12
    rw [List.length_append, ih (i + 1),
      show (rowValues i r).length = 12 from rfl]
    omega

/-- C8 (code bug in the enqueue handler): each catalog row contributes
twelve bound values but only eleven placeholder indices to the INSERT
(the catalog row id is pushed with no target column or placeholder), so
the bind always supplies one more value than the prepared statement has
parameters and Postgres rejects the INSERT for every non-empty match
set. Concretely, a valid request matching one catalog row surfaces the
unhandled SQL error and inserts nothing, while a request matching no
catalog row is answered with count zero, not an error, and inserts
nothing. -/
theorem enqueue_insert_rejected :
    (∀ (r : CatalogRow) (rs : List CatalogRow), insertAccepted (r :: rs) = false)
    ∧ postImportacoes
        [{ id := 7, distribuidora := "CEMIG", ano := 2023, url := "u",
           title := "t" }]
        ⟨some ["CEMIG"], some [2023]⟩ = ⟨.sqlError, true, 0⟩
    ∧ postImportacoes [] ⟨some ["CEMIG"], some [2023]⟩ = ⟨.okCount 0, true, 0⟩ := by
  refine ⟨?_, by decide, by decide⟩
  intro r rs
  unfold insertAccepted
  have h1 : (enqueueValues 0 (r :: rs)).length = (rs.length + 1) * 12 := by
    rw [enqueueValues_length (r :: rs) 0]
    simp
  have h2 : statementParamCount (r :: rs).length = rs.length * 12 + 11 := by
    rw [show (r :: rs).length = rs.length + 1 from by simp]
    exact statementParamCount_succ rs.length
  rw [h1, h2]
  have h3 : ((rs.length + 1) * 12 == rs.length * 12 + 11) = false := by
    rw [beq_eq_false_iff_ne]
    omega
  rw [h3]
  rfl

/-- C9 counterexample: the claim as stated fails on the code: the
status GET does not expose every ImportJob field, because no column of
its projection carries the catalog back-reference (catalog_ref). -/
theorem status_get_missing_field :
    ¬ (∀ f ∈ specImportJobFields, specFieldToColumn f ∈ statusSelectColumns) := by
  decide

/-- C9 amended: the status GET returns at most 200 rows, ordered by
COALESCE(data_inicio, now()) descending so that never-started rows sort
as most recent, and exposes every ImportJob field except the catalog
back-reference, which is absent from its projection. -/
theorem status_get_contract (now : Nat) (store : List Job)
    (hnow : ∀ j ∈ store, ∀ t, j.data_inicio = some t → t ≤ now) :
    (∀ f ∈ specImportJobFields, f ≠ "catalog_ref" →
      specFieldToColumn f ∈ statusSelectColumns)
    ∧ (statusRows now store).length ≤ 200
    ∧ List.Sorted (StatusGe now) (statusRows now store)
    ∧ (∀ j ∈ statusRows now store, j.data_inicio = none →
        ∀ i ∈ statusRows now store, startKey now i ≤ startKey now j) := by
  refine ⟨by decide, ?_, ?_, ?_⟩
  · unfold statusRows
    rw [List.length_take]
    exact min_le_left _ _
  · exact List.Pairwise.sublist (List.take_sublist _ _)
      (List.sorted_insertionSort (StatusGe now) store)
  · intro j hj hnone i hi
    have hjk : startKey now j = now := by simp [startKey, hnone]
    rw [hjk]
    have hist : i ∈ store := by
      have h1 := (List.take_sublist _ _).subset hi
      exact ((List.perm_insertionSort (StatusGe now) store).mem_iff).mp h1
    cases hd : i.data_inicio with
    | none => simp [startKey, hd]
    | some t2 =>
      have hle := hnow i hist t2 hd
      simp only [startKey, hd, Option.getD_some]
      exact hle

/-- Witness for C9 at a concrete store of one started and one
never-started row. -/
theorem status_get_contract_witness :
    (∀ f ∈ specImportJobFields, f ≠ "catalog_ref" →
      specFieldToColumn f ∈ statusSelectColumns)
    ∧ (statusRows 9 [
        { import_id := 1, distribuidora_nome := "A", ano := 2023, camada := none,
          status := .done, linhas_processadas := 0, data_inicio := some 5,
          data_fim := some 7, observacoes := none, erro := none },
        { import_id := 2, distribuidora_nome := "B", ano := 2023, camada := none,
          status := .queued, linhas_processadas := 0, data_inicio := none,
          data_fim := none, observacoes := none, erro := none }]).length ≤ 200
    ∧ List.Sorted (StatusGe 9) (statusRows 9 [
        { import_id := 1, distribuidora_nome := "A", ano := 2023, camada := none,
          status := .done, linhas_processadas := 0, data_inicio := some 5,
          data_fim := some 7, observacoes := none, erro := none },
        { import_id := 2, distribuidora_nome := "B", ano := 2023, camada := none,
          status := .queued, linhas_processadas := 0, data_inicio := none,
          data_fim := none, observacoes := none, erro := none }])
    ∧ (∀ j ∈ statusRows 9 [
        { import_id := 1, distribuidora_nome := "A", ano := 2023, camada := none,
          status := .done, linhas_processadas := 0, data_inicio := some 5,
          data_fim := some 7, observacoes := none, erro := none },
        { import_id := 2, distribuidora_nome := "B", ano := 2023, camada := none,
          status := .queued, linhas_processadas := 0, data_inicio := none,
          data_fim := none, observacoes := none, erro := none }],
        j.data_inicio = none →
        ∀ i ∈ statusRows 9 [
        { import_id := 1, distribuidora_nome := "A", ano := 2023, camada := none,
          status := .done, linhas_processadas := 0, data_inicio := some 5,
          data_fim := some 7, observacoes := none, erro := none },
        { import_id := 2, distribuidora_nome := "B", ano := 2023, camada := none,
          status := .queued, linhas_processadas := 0, data_inicio := none,
          data_fim := none, observacoes := none, erro := none }],
          startKey 9 i ≤ startKey 9 j) :=
  status_get_contract 9 _ (by
    intro j hj t ht
    rcases List.mem_cons.mp hj with rfl | hj2
    · simp at ht
      omega
    · rcases List.mem_cons.mp hj2 with rfl | h3
      · simp at ht
      · cases h3)

/-- C10: an enqueue POST whose body lacks distribuidoras or anos, or
where either is not an array or is empty, is answered 400 with the
invalid-selection message, performs no catalog query and inserts no
rows. -/
theorem post_invalid_selection (catalog : List CatalogRow) (req : EnqueueReq)
    (h : req.distribuidoras = none ∨ req.distribuidoras = some [] ∨
      req.anos = none ∨ req.anos = some []) :
    postImportacoes catalog req = ⟨.badRequest "Seleção inválida", false, 0⟩
    ∧ statusCodeOf (postImportacoes catalog req).response = 400 := by
  obtain ⟨d, a⟩ := req
  simp only at h
  have hv : validSelection ⟨d, a⟩ = false := by
    unfold validSelection
    rcases h with h | h | h | h
    · subst h
      rfl
    · subst h
      rfl
    · subst h
      cases d with
      | none => rfl
      | some l => cases l <;> rfl
    · subst h
      cases d with
      | none => rfl
      | some l => cases l <;> rfl
  have hp : postImportacoes catalog ⟨d, a⟩ =
      ⟨.badRequest "Seleção inválida", false, 0⟩ := by
    unfold postImportacoes
    rw [hv]
    rfl
  exact ⟨hp, by rw [hp]; rfl⟩

/-- Witness for C10 at a concrete body missing the distribuidoras
array. -/
theorem post_invalid_selection_witness :
    postImportacoes [] ⟨none, some [2023]⟩ =
      ⟨.badRequest "Seleção inválida", false, 0⟩
    ∧ statusCodeOf (postImportacoes [] ⟨none, some [2023]⟩).response = 400 :=
  post_invalid_selection [] ⟨none, some [2023]⟩ (Or.inl rfl)
